import Mathlib

/-!
Verification of the DNA helix-network core: topology generation
(`buildStrandLinks`), evolution (`evolveDummyNetwork` and the scheduler tick
of the React evolution effect), and the deterministic per-entity animation
state (`OrganicNode` / `OrganicLink`).

The JavaScript source is embedded shallowly:

* JS numbers are modelled as `ℚ` (the claims under study are structural, not
  floating-point claims); `Math.floor` is `Rat.floor`.
* Every call to `Math.random()` consumes the next value of an explicit
  stream `Nat → ℚ` threaded through a `BuildState` cursor, in the exact
  evaluation order of the source (including default-parameter evaluation).
* JS `undefined` for a missing string (e.g. an out-of-range array read that
  is then tested for truthiness) is modelled as `""`, which is exactly the
  other falsy string value; `pushLink` tests `source = ""` where the source
  tests `!source`.
* `computeApproxPositions` (trigonometric helix placement) is abstracted as
  a position oracle `Nat → ℚ × ℚ × ℚ` in the environment: no claim depends
  on the numeric positions, only on which indices the proximity pass reads.
* The auxiliary node *generators* (`addBridgeNodes` etc.) are modelled
  faithfully in their disabled branch (return the input unchanged); their
  enabled branch appends an oracle-supplied batch, since the claims either
  hold for every appended batch or are settled with the families disabled.
-/

-- Mathlib marks the arithmetic of `Rat` irreducible, which leaves concrete
-- runs of the embedded generators opaque to `decide` and `rfl`.  Restore the
-- default reducibility so that witnesses evaluate inside proofs; this only
-- changes elaboration transparency, not any definition or proof obligation.
set_option allowUnsafeReducibility true

attribute [semireducible] Rat.mul Rat.add Rat.sub Rat.inv

/-- A link of the dummy network: `{ source, target, weight, active }`. -/
structure Link where
  source : String
  target : String
  weight : ℚ
  active : Bool
deriving Repr, DecidableEq

/-- A node of the dummy network.  Coordinate fields (`x`,`y`,`z`,
`forcePosition`) are omitted because positions are abstracted by the
position oracle; all modelled code paths read only the fields below. -/
structure Node where
  id : String
  layer : String
  activation : ℚ
  active : Bool
  parentId : Option String := none
  parentA : Option String := none
  parentB : Option String := none
deriving Repr, DecidableEq

/-- `strandCfg.grouping`. -/
structure GroupingCfg where
  enabled : Bool
  groupSize : Nat
  intraLinkDensity : ℚ
  bridgeToNextGroup : Bool
deriving Repr, DecidableEq

/-- `strandCfg.spiderWeb`. -/
structure SpiderCfg where
  enabled : Bool
  ringNeighbors : Nat
  diagonalSpan : Nat
  skipChance : ℚ
  weightMin : ℚ
  weightMax : ℚ
  activeChance : ℚ
deriving Repr, DecidableEq

/-- `strandCfg.crossStrand`; `enabled` models `crossCfg.enabled !== false`. -/
structure CrossCfg where
  enabled : Bool
  weight : ℚ
  diagonalWeight : ℚ
deriving Repr, DecidableEq

/-- `strandCfg.bridgeNodes` (the fields the link passes read). -/
structure BridgeCfg where
  enabled : Bool
  weightMin : ℚ
  weightMax : ℚ
  activeChance : ℚ
deriving Repr, DecidableEq

/-- `strandCfg.subStrands` (the fields the link passes read). -/
structure SubCfg where
  enabled : Bool
  weightMin : ℚ
  weightMax : ℚ
  parentLinkWeight : ℚ
deriving Repr, DecidableEq

/-- `strandCfg.ends` (the fields the link pass and evolution read). -/
structure EndsCfg where
  enabled : Bool
  activeChance : ℚ
  spawnChance : ℚ
deriving Repr, DecidableEq

/-- `strandCfg.floatingNodes` (only the toggle is read by modelled paths). -/
structure FloatingCfg where
  enabled : Bool
deriving Repr, DecidableEq

/-- `network.extraRandomLinks`. -/
structure ExtraCfg where
  enabled : Bool
  perNodeRange : ℚ × ℚ
  weightMin : ℚ
  weightMax : ℚ
  activeChance : ℚ
deriving Repr, DecidableEq

/-- `network.proximityLinks`. -/
structure ProximityCfg where
  enabled : Bool
  distance : ℚ
  maxPerNode : Nat
  checkWindow : Nat
  weightMin : ℚ
  weightMax : ℚ
  activeChance : ℚ
deriving Repr, DecidableEq

/-- `network.ensureConnectivity`. -/
structure ConnectivityCfg where
  enabled : Bool
  minLinksPerNode : Nat
  weightMin : ℚ
  weightMax : ℚ
  activeChance : ℚ
  uniqueTargets : Bool
  maxAttempts : Nat
deriving Repr, DecidableEq

/-- The structural configuration read by `buildStrandLinks` and the
evolution passes (the relevant slice of `VISUAL_DEFAULTS`). -/
structure Cfg where
  strandCount : Nat
  grouping : GroupingCfg
  spiderWeb : SpiderCfg
  crossStrand : CrossCfg
  bridgeNodes : BridgeCfg
  subStrands : SubCfg
  ends : EndsCfg
  floatingNodes : FloatingCfg
  extraRandomLinks : ExtraCfg
  proximityLinks : ProximityCfg
  ensureConnectivity : ConnectivityCfg
  connectionsPerNodeRange : Option (ℚ × ℚ)
deriving Repr, DecidableEq

/-- Environment: the `Math.random()` stream, the position oracle standing
for `computeApproxPositions`, and batch oracles for the enabled branches of
the auxiliary node generators. -/
structure EnvR where
  stream : Nat → ℚ
  pos : Nat → ℚ × ℚ × ℚ
  bridgeBatch : List Node → List Node
  subBatch : List Node → List Node
  endBatch : List Node → List Node
  floatBatch : List Node → List Node

/-- Mutable state of one `buildStrandLinks` run: the random cursor, the
seen-key set (`linkSet`), the accumulated links and the degree map. -/
structure BuildState where
  k : Nat
  linkKeys : List (List Char)
  links : List Link
  degree : List (String × Nat)
deriving Repr, DecidableEq

/-- Draw the next `Math.random()` value. -/
def randQ (env : EnvR) (st : BuildState) : ℚ × BuildState :=
  (env.stream st.k, { st with k := st.k + 1 })

/-- Look up a degree (`degreeMap.get(id) || 0`). -/
def degGet (d : List (String × Nat)) (id : String) : Nat :=
  match d.find? (fun p => p.1 == id) with
  | some p => p.2
  | none => 0

/-- `bumpDegree`. -/
def degBump (d : List (String × Nat)) (id : String) : List (String × Nat) :=
  if d.any (fun p => p.1 == id) then
    d.map (fun p => if p.1 == id then (p.1, p.2 + 1) else p)
  else
    d ++ [(id, 1)]

/-- The dedup key of `pushLink`, the template string `source|target`
represented by its character data. -/
def linkKey (s t : String) : List Char :=
  s.data ++ '|' :: t.data

/-- `pushLink(source, target, weight, active)` with `weight` and `active`
already evaluated (each call site consumes its own random draws first, in
source order).  Rejects falsy endpoints, self-loops and already-seen keys;
otherwise appends the link and bumps both degrees. -/
def pushLink (s t : String) (w : ℚ) (a : Bool) (st : BuildState) : BuildState :=
  if s = "" ∨ t = "" ∨ s = t then st
  else if linkKey s t ∈ st.linkKeys then st
  else
    { st with
      linkKeys := linkKey s t :: st.linkKeys
      links := st.links ++ [⟨s, t, w, a⟩]
      degree := degBump (degBump st.degree s) t }

/-- A `pushLink` call that omits `active`, so the default parameter
`active = Math.random() > 0.35` consumes one draw at function entry. -/
def pushD (env : EnvR) (s t : String) (w : ℚ) (st : BuildState) : BuildState :=
  let (r, st1) := randQ env st
  pushLink s t w (decide ((35 : ℚ)/100 < r)) st1

/-- JS array read `ids[Math.floor(q)]` of a string array: out-of-range and
negative indices give `undefined`, modelled as `""`. -/
def idAtQ (ids : List String) (q : ℚ) : String :=
  let i := Rat.floor q
  if i < 0 then "" else ids.getD i.toNat ""

/-- Round-robin partition `strands[idx % strandCount].push(node.id)`. -/
def roundRobin (strandCount : Nat) (l : List String) : List (List String) :=
  (List.range strandCount).map
    (fun s => (l.enum.filter (fun p => p.1 % strandCount == s)).map Prod.snd)

/-- The read `strands[s][i]`, `undefined` modelled as `""`. -/
def stGet (strands : List (List String)) (s i : Nat) : String :=
  (strands.getD s []).getD i ""

/-- Fallback node for the (unreachable in practice) out-of-range reads. -/
def dNode : Node := ⟨"", "", 0, false, none, none, none⟩

/-- The spine loop of one strand: `pushLink(strand[i], strand[i+1], 0.6)`
for every consecutive pair (the call omits `active`, so each push consumes
one draw for the default parameter). -/
def spinePass (env : EnvR) (strand : List String) (st : BuildState) : BuildState :=
  (List.range (strand.length - 1)).foldl
    (fun st i => pushD env (strand.getD i "") (strand.getD (i + 1) "") ((6 : ℚ)/10) st) st

/-- Group starts `0, g, 2g, ...` strictly below `len`. -/
def groupStarts (g len : Nat) : List Nat :=
  (List.range ((len + g - 1) / g)).map (· * g)

/-- Intra-group anchor links of one group, each gated by
`Math.random() <= intraLinkDensity`. -/
def groupInner (env : EnvR) (gc : GroupingCfg) (anchor : String) (group : List String)
    (st : BuildState) : BuildState :=
  (List.range (group.length - 1)).foldl (fun st j =>
    let (r, sta) := randQ env st
    if r ≤ gc.intraLinkDensity then pushD env anchor (group.getD (j + 1) "") ((6 : ℚ)/10) sta
    else sta) st

/-- Processing of one group window: intra-group links to the anchor, then
the optional bridge to the next group's anchor. -/
def groupBody (env : EnvR) (gc : GroupingCfg) (strand : List String) (st : BuildState)
    (start : Nat) : BuildState :=
  let gs := max 1 gc.groupSize
  let group := (strand.drop start).take gs
  let anchor := group.getD 0 ""
  let st1 := groupInner env gc anchor group st
  if gc.bridgeToNextGroup ∧ start + gs < strand.length then
    let nextAnchor := strand.getD (start + gs) ""
    if nextAnchor ≠ "" then pushD env anchor nextAnchor ((5 : ℚ)/10) st1 else st1
  else st1

/-- The grouping body of one strand: every group window in order. -/
def groupingPass (env : EnvR) (gc : GroupingCfg) (strand : List String) (st : BuildState) : BuildState :=
  (groupStarts (max 1 gc.groupSize) strand.length).foldl (groupBody env gc strand) st

/-- One iteration of `strands.forEach`: the unconditional spine, then the
grouping body when `groupingEnabled && groupSize > 1`. -/
def strandPass (env : EnvR) (cfg : Cfg) (strand : List String) (st : BuildState) : BuildState :=
  let st1 := spinePass env strand st
  if cfg.grouping.enabled ∧ 1 < max 1 cfg.grouping.groupSize then
    groupingPass env cfg.grouping strand st1
  else st1

/-- The cross-strand pass: same-rung links to the next strand and diagonal
offset-by-one links, per rung. -/
def crossPass (env : EnvR) (cc : CrossCfg) (K : Nat) (strands : List (List String))
    (maxLen : Nat) (st : BuildState) : BuildState :=
  (List.range maxLen).foldl (fun st i =>
    let st1 := (List.range K).foldl (fun st s =>
      let current := stGet strands s i
      let nxt := stGet strands ((s + 1) % K) i
      if current ≠ "" ∧ nxt ≠ "" then pushD env current nxt cc.weight st else st) st
    (List.range K).foldl (fun st s =>
      let current := stGet strands s i
      let diag := stGet strands ((s + 1) % K) (i + 1)
      if current ≠ "" ∧ diag ≠ "" then pushD env current diag cc.diagonalWeight st else st) st1) st

/-- The spider-web pass: ring links out to `ringNeighbors` strands away and
diagonal links spanning up to `diagonalSpan` rungs, each gated by
`Math.random() > skipChance`, with sampled weight and active flag. -/
def spiderPass (env : EnvR) (sc : SpiderCfg) (K : Nat) (strands : List (List String))
    (maxLen : Nat) (st : BuildState) : BuildState :=
  let rn := max 1 sc.ringNeighbors
  let ds := max 1 sc.diagonalSpan
  (List.range maxLen).foldl (fun st i =>
    (List.range K).foldl (fun st s =>
      let current := stGet strands s i
      if current = "" then st
      else
        let st1 := (List.range rn).foldl (fun st o =>
          let neighbor := stGet strands ((s + (o + 1)) % K) i
          if neighbor ≠ "" then
            let (r1, sta) := randQ env st
            if sc.skipChance < r1 then
              let (r2, stb) := randQ env sta
              let w := sc.weightMin + r2 * max ((1 : ℚ)/10000) (sc.weightMax - sc.weightMin)
              let (r3, stc) := randQ env stb
              pushLink current neighbor w (decide (r3 < sc.activeChance)) stc
            else sta
          else st) st
        (List.range ds).foldl (fun st o =>
          let diag := stGet strands ((s + 1) % K) (i + (o + 1))
          if diag ≠ "" then
            let (r1, sta) := randQ env st
            if sc.skipChance < r1 then
              let (r2, stb) := randQ env sta
              let w := sc.weightMin + r2 * max ((1 : ℚ)/10000) (sc.weightMax - sc.weightMin)
              let (r3, stc) := randQ env stb
              pushLink current diag w (decide (r3 < sc.activeChance)) stc
            else sta
          else st) st1) st) st

/-- The bridge-node link pass: every `bridge`-layer node is linked from each
of its (truthy) parents. -/
def bridgeLinkPass (env : EnvR) (bc : BridgeCfg) (nodes : List Node) (st : BuildState) : BuildState :=
  nodes.foldl (fun st n =>
    if n.layer ≠ "bridge" then st
    else
      let parents := ([n.parentA, n.parentB].filterMap id).filter (fun p => p ≠ "")
      parents.foldl (fun st parentId =>
        let (rW, st1) := randQ env st
        let w := bc.weightMin + rW * max ((1 : ℚ)/10000) (bc.weightMax - bc.weightMin)
        let (rA, st2) := randQ env st1
        pushLink parentId n.id w (decide (rA < bc.activeChance)) st2) st) st

/-- The sub-strand link pass: each sub-strand node is linked from its parent
(with an occasional duplicate push that the seen-key set rejects), then the
sub-strand nodes of each parent are chained in sequence, parents iterated in
first-encounter order as a JS `Map` would. -/
def subLinkPass (env : EnvR) (sc : SubCfg) (nodes : List Node) (st : BuildState) : BuildState :=
  let st1 := nodes.foldl (fun st n =>
    if n.layer ≠ "sub-strand" then st
    else
      let pid := n.parentId.getD ""
      if pid = "" then st
      else
        let (rW, sta) := randQ env st
        let w := sc.weightMin + rW * max ((1 : ℚ)/10000) (sc.weightMax - sc.weightMin)
        let stb := pushD env pid n.id sc.parentLinkWeight sta
        let (rH, stc) := randQ env stb
        if rH < (1 : ℚ)/2 then pushD env pid n.id w stc else stc) st
  let subNodes := nodes.filter (fun n => n.layer == "sub-strand" && n.parentId.getD "" != "")
  let parentsInOrder := (subNodes.map (fun n => n.parentId.getD "")).eraseDups
  parentsInOrder.foldl (fun st pid =>
    let lst := subNodes.filter (fun n => n.parentId.getD "" == pid)
    (List.range (lst.length - 1)).foldl (fun st i =>
      let (rW, sta) := randQ env st
      let w := sc.weightMin + rW * max ((1 : ℚ)/10000) (sc.weightMax - sc.weightMin)
      pushD env (lst.getD i dNode).id (lst.getD (i + 1) dNode).id w sta) st) st1

/-- The end-noise link pass, with its hard-coded weight range `[0.15, 0.4]`
and active chance `0.5`. -/
def endsLinkPass (env : EnvR) (nodes : List Node) (st : BuildState) : BuildState :=
  nodes.foldl (fun st n =>
    if n.layer ≠ "end-noise" then st
    else
      let pid := n.parentId.getD ""
      if pid = "" then st
      else
        let (rW, st1) := randQ env st
        let w := (15 : ℚ)/100 + rW * max ((1 : ℚ)/10000) ((4 : ℚ)/10 - (15 : ℚ)/100)
        let (rA, st2) := randQ env st1
        pushLink pid n.id w (decide (rA < (1 : ℚ)/2)) st2) st

/-- The extra-random-link pass: `extraCount` random targets per source, the
per-node range coming from `connectionsPerNodeRange || extraRandom.perNodeRange`. -/
def extraPass (env : EnvR) (cfg : Cfg) (ids : List String) (st : BuildState) : BuildState :=
  let pr := cfg.connectionsPerNodeRange.getD cfg.extraRandomLinks.perNodeRange
  ids.foldl (fun st source =>
    let (rC, st1) := randQ env st
    let extraCount := (Rat.floor (pr.1 + rC * (pr.2 - pr.1 + 1))).toNat
    (List.range extraCount).foldl (fun st _ =>
      let (rT, sta) := randQ env st
      let target := idAtQ ids (rT * (ids.length : ℚ))
      let (rW, stb) := randQ env sta
      let w := cfg.extraRandomLinks.weightMin +
        rW * max ((1 : ℚ)/10000) (cfg.extraRandomLinks.weightMax - cfg.extraRandomLinks.weightMin)
      let (rA, stc) := randQ env stb
      pushLink source target w (decide (rA < cfg.extraRandomLinks.activeChance)) stc) st1) st

/-- The padding `while` loop, fuelled: the source loops while
`links.length < linkCount && ids.length > 1`, redirecting an equal target to
the successor of the source.  `none` means the fuel ran out with the guard
still true, i.e. the source would still be spinning. -/
def padLoop (env : EnvR) (ids : List String) (linkCount : Nat) :
    Nat → BuildState → Option BuildState
  | 0, st => if st.links.length < linkCount ∧ 1 < ids.length then none else some st
  | fuel + 1, st =>
    if st.links.length < linkCount ∧ 1 < ids.length then
      let (r1, st1) := randQ env st
      let source := idAtQ ids (r1 * (ids.length : ℚ))
      let (r2, st2) := randQ env st1
      let t0 := idAtQ ids (r2 * (ids.length : ℚ))
      let target :=
        if source = t0 then
          let j := if source ∈ ids then (ids.indexOf source + 1) % ids.length else 0
          ids.getD j ""
        else t0
      let (rW, st3) := randQ env st2
      let st4 := pushD env source target ((15 : ℚ)/100 + rW * (35 : ℚ)/100) st3
      padLoop env ids linkCount fuel st4
    else some st

/-- Inner window scan of the proximity pass for one source index.  The
source compares `Math.sqrt(d2) <= distance`, which for `d2 ≥ 0` is exactly
`0 ≤ distance ∧ d2 ≤ distance²`; the squared form keeps the test rational. -/
def proxInner (env : EnvR) (pc : ProximityCfg) (nodes : List Node) (source : String) (idx : Nat) :
    List Nat → Nat → BuildState → BuildState
  | [], _, st => st
  | j :: rest, added, st =>
    if j = idx then proxInner env pc nodes source idx rest added st
    else
      let target := (nodes.getD j dNode).id
      if target = "" then proxInner env pc nodes source idx rest added st
      else
        let p := env.pos idx
        let q := env.pos j
        let dx := p.1 - q.1
        let dy := p.2.1 - q.2.1
        let dz := p.2.2 - q.2.2
        let d2 := dx * dx + dy * dy + dz * dz
        if 0 ≤ pc.distance ∧ d2 ≤ pc.distance * pc.distance then
          let (rW, st1) := randQ env st
          let w := pc.weightMin + rW * max ((1 : ℚ)/10000) (pc.weightMax - pc.weightMin)
          let (rA, st2) := randQ env st1
          let st3 := pushLink source target w (decide (rA < pc.activeChance)) st2
          if pc.maxPerNode ≤ added + 1 then st3
          else proxInner env pc nodes source idx rest (added + 1) st3
        else proxInner env pc nodes source idx rest added st

/-- The proximity pass: for each index, scan the sliding window
`[max(0, idx-W), min(len-1, idx+W)]` and link nodes within the distance
threshold, at most `maxPerNode` per source. -/
def proxPass (env : EnvR) (pc : ProximityCfg) (nodes : List Node) (st : BuildState) : BuildState :=
  (List.range nodes.length).foldl (fun st idx =>
    let source := (nodes.getD idx dNode).id
    if source = "" then st
    else
      let start := idx - pc.checkWindow
      let endJ := min (nodes.length - 1) (idx + pc.checkWindow)
      let js := (List.range (endJ + 1 - start)).map (· + start)
      proxInner env pc nodes source idx js 0 st) st

/-- The top-up loop of the connectivity pass for one deficient source,
recursing on the remaining attempt budget.  A drawn target that equals the
source or repeats a used target only burns an attempt; otherwise the pass
pushes (the push may be a seen-key no-op) and records the target as used. -/
def connLoop (env : EnvR) (cc : ConnectivityCfg) (ids : List String) (source : String)
    (needed : Nat) : Nat → List String → BuildState → BuildState
  | 0, _, st => st
  | a + 1, used, st =>
    if used.length < needed then
      let (rT, st1) := randQ env st
      let target := idAtQ ids (rT * (ids.length : ℚ))
      if target = source then connLoop env cc ids source needed a used st1
      else if cc.uniqueTargets ∧ target ∈ used then connLoop env cc ids source needed a used st1
      else
        let (rW, st2) := randQ env st1
        let w := cc.weightMin + rW * max ((1 : ℚ)/10000) (cc.weightMax - cc.weightMin)
        let (rA, st3) := randQ env st2
        let st4 := pushLink source target w (decide (rA < cc.activeChance)) st3
        let used1 := if target ∈ used then used else used ++ [target]
        connLoop env cc ids source needed a used1 st4
    else st

/-- The connectivity pass over all ids, with the source's fallbacks
`Math.max(1, minLinksPerNode || 1)` and `Math.max(1, maxAttempts || 6)`. -/
def connPass (env : EnvR) (cc : ConnectivityCfg) (ids : List String) (st : BuildState) : BuildState :=
  let minLinks := max 1 cc.minLinksPerNode
  let maxAtt := max 1 (if cc.maxAttempts = 0 then 6 else cc.maxAttempts)
  ids.foldl (fun st source =>
    let cur := degGet st.degree source
    if minLinks ≤ cur then st
    else connLoop env cc ids source (minLinks - cur) maxAtt [] st) st

/-- `nodes.map(node => node.id)`. -/
def stIds (nodes : List Node) : List String := nodes.map (·.id)

/-- `VISUAL_DEFAULTS.strand?.strandCount || 3` as read by `buildStrandLinks`. -/
def strandCountOf (cfg : Cfg) : Nat := if cfg.strandCount = 0 then 3 else cfg.strandCount

/-- The base-node filter of `buildStrandLinks`. -/
def baseNodesOf (nodes : List Node) : List Node :=
  nodes.filter (fun n => n.layer != "bridge" && n.layer != "end-noise")

/-- The strand partition `buildStrandLinks` builds before linking. -/
def strandsOf (cfg : Cfg) (nodes : List Node) : List (List String) :=
  roundRobin (strandCountOf cfg) ((baseNodesOf nodes).map (·.id))

/-- `lengths.length ? Math.max(...lengths) : 0`. -/
def maxLenOf (strands : List (List String)) : Nat := (strands.map List.length).foldl max 0

/-- The passes of `buildStrandLinks` before the padding loop, in source
order: spine and grouping per strand, cross-strand, spider web, bridge,
sub-strand and end-noise link passes, then extra random links. -/
def buildPre (cfg : Cfg) (env : EnvR) (nodes : List Node) (k0 : Nat) : BuildState :=
  let ids := stIds nodes
  let K := strandCountOf cfg
  let strands := strandsOf cfg nodes
  let maxLen := maxLenOf strands
  let st0 : BuildState := ⟨k0, [], [], []⟩
  let st1 := strands.foldl (fun st strand => strandPass env cfg strand st) st0
  let st2 := if cfg.crossStrand.enabled then crossPass env cfg.crossStrand K strands maxLen st1 else st1
  let st3 := if cfg.spiderWeb.enabled then spiderPass env cfg.spiderWeb K strands maxLen st2 else st2
  let st4 := if cfg.bridgeNodes.enabled then bridgeLinkPass env cfg.bridgeNodes nodes st3 else st3
  let st5 := if cfg.subStrands.enabled then subLinkPass env cfg.subStrands nodes st4 else st4
  let st6 := if cfg.ends.enabled then endsLinkPass env nodes st5 else st5
  if cfg.extraRandomLinks.enabled ∧ 1 < ids.length then extraPass env cfg ids st6 else st6

/-- The passes of `buildStrandLinks` after the padding loop: proximity
links, then the connectivity guarantee. -/
def buildPost (cfg : Cfg) (env : EnvR) (nodes : List Node) (st8 : BuildState) : BuildState :=
  let ids := stIds nodes
  let st9 := if cfg.proximityLinks.enabled ∧ 1 < ids.length then proxPass env cfg.proximityLinks nodes st8 else st8
  if cfg.ensureConnectivity.enabled ∧ 1 < ids.length then connPass env cfg.ensureConnectivity ids st9 else st9

/-- The whole of `buildStrandLinks` before the final
`links.slice(0, linkCount)`, started at random cursor `k0`.  `none` means
the padding loop ran out of fuel with its guard still true (the source
would not have returned). -/
def buildStrandLinksFull (cfg : Cfg) (env : EnvR) (nodes : List Node) (linkCount : Nat)
    (fuel : Nat) (k0 : Nat) : Option BuildState :=
  match padLoop env (stIds nodes) linkCount fuel (buildPre cfg env nodes k0) with
  | none => none
  | some st8 => some (buildPost cfg env nodes st8)

/-- `buildStrandLinks(nodes, linkCount)`: the link list of the full run,
truncated by the final `slice(0, linkCount)`. -/
def buildStrandLinks (cfg : Cfg) (env : EnvR) (nodes : List Node) (linkCount : Nat)
    (fuel : Nat) (k0 : Nat) : Option (List Link) :=
  (buildStrandLinksFull cfg env nodes linkCount fuel k0).map (fun st => st.links.take linkCount)

/-- `clamp(value, min, max)`. -/
def clamp (value lo hi : ℚ) : ℚ := min hi (max lo value)

/-- A `{nodes, links}` network value. -/
structure Network where
  nodes : List Node
  links : List Link
deriving Repr, DecidableEq

/-- `MOCK_DATA.simulation.pulse` parameters. -/
structure PulseOpts where
  activationJitter : ℚ
  activeChance : ℚ
deriving Repr, DecidableEq

/-- `mutation.linkUpdate` parameters for `updateNodesFromLinks`. -/
structure LinkUpdateOpts where
  influence : ℚ
  jitter : ℚ
  activeThreshold : ℚ
  activeBoostChance : ℚ
deriving Repr, DecidableEq

/-- `mutation` parameters of `evolveDummyNetwork`. -/
structure MutationOpts where
  addProbability : ℚ
  removeProbability : ℚ
  minNodes : Nat
  maxNodes : ℚ
  linkCount : Nat
  updateNodesOnRelink : Bool
  linkUpdate : LinkUpdateOpts
deriving Repr, DecidableEq

/-- The options record of `evolveDummyNetwork`. -/
structure EvolveOpts where
  pulse : PulseOpts
  mutation : MutationOpts
  mutationOnly : Bool
deriving Repr, DecidableEq

/-- `Number(String(node.id || '').replace('n-', ''))`, restricted to the id
shapes this program produces: stripping a leading `n-`, the empty string
parses to 0, a digit string parses to its value, and anything else is `NaN`
(`none`).  JS inputs outside these shapes (signs, spaces, decimal points)
do not occur as node ids here. -/
def jsNumericId (id : String) : Option Int :=
  let cs := if id.data.take 2 = ['n', '-'] then id.data.drop 2 else id.data
  if cs = [] then some 0
  else if cs.all (fun c => 48 ≤ c.toNat && c.toNat ≤ 57) then
    some ((cs.foldl (fun n c => n * 10 + (c.toNat - 48)) 0 : Nat) : Int)
  else none

/-- `getNextNodeId`: one more than the largest numeric id, falling back to
`nodes.length - 1` when no id is numeric. -/
def getNextNodeId (nodes : List Node) : String :=
  let indices := nodes.filterMap (fun n => jsNumericId n.id)
  let maxId : Int :=
    match indices with
    | [] => (nodes.length : Int) - 1
    | h :: t => t.foldl max h
  "n-" ++ toString (maxId + 1)

/-- `addBridgeNodes`: the disabled branch returns its input unchanged, as in
the source; the enabled branch appends the oracle batch standing for the
randomly generated bridge nodes (their trigonometric midpoint placement and
capacity bookkeeping are abstracted into the oracle). -/
def addBridgeNodes (cfg : Cfg) (env : EnvR) (nodes : List Node) : List Node :=
  if cfg.bridgeNodes.enabled then nodes ++ env.bridgeBatch nodes else nodes

/-- `addSubStrandNodes`, abstracted like `addBridgeNodes`. -/
def addSubStrandNodes (cfg : Cfg) (env : EnvR) (nodes : List Node) : List Node :=
  if cfg.subStrands.enabled then nodes ++ env.subBatch nodes else nodes

/-- `addEndNoiseNodes`, abstracted like `addBridgeNodes`. -/
def addEndNoiseNodes (cfg : Cfg) (env : EnvR) (nodes : List Node) : List Node :=
  if cfg.ends.enabled then nodes ++ env.endBatch nodes else nodes

/-- `addFloatingNodes`, abstracted like `addBridgeNodes`. -/
def addFloatingNodes (cfg : Cfg) (env : EnvR) (nodes : List Node) : List Node :=
  if cfg.floatingNodes.enabled then nodes ++ env.floatBatch nodes else nodes

/-- One node of `updateNodesFromLinks`: the jittered activation delta and
the active flag; `ratio > activeThreshold || Math.random() < activeBoostChance`
short-circuits, so the boost draw happens only when the ratio test fails. -/
def updateNode (env : EnvR) (o : LinkUpdateOpts) (degree activeDegree : List (String × Nat))
    (node : Node) (k : Nat) : Node × Nat :=
  let deg := degGet degree node.id
  let act := degGet activeDegree node.id
  let ratio : ℚ := if 0 < deg then (act : ℚ) / (deg : ℚ) else 0
  let r1 := env.stream k
  let delta := (ratio - 1/2) * o.influence + (r1 - 1/2) * o.jitter
  let newActivation := clamp (node.activation + delta) 0 1
  if o.activeThreshold < ratio then
    ({ node with activation := newActivation, active := true }, k + 1)
  else
    let r2 := env.stream (k + 1)
    let a2 := decide (r2 < o.activeBoostChance)
    ({ node with activation := newActivation, active := a2 }, k + 2)

/-- `updateNodesFromLinks(nodes, links, options)`: degree and active-degree
maps over the links, then the per-node update in order. -/
def updateNodesFromLinks (env : EnvR) (o : LinkUpdateOpts) (nodes : List Node)
    (links : List Link) (k0 : Nat) : List Node × Nat :=
  let degree := links.foldl (fun d l =>
    if l.source = "" ∨ l.target = "" then d else degBump (degBump d l.source) l.target) []
  let activeDegree := links.foldl (fun d l =>
    if l.source = "" ∨ l.target = "" then d
    else if l.active then degBump (degBump d l.source) l.target else d) []
  nodes.foldl (fun (acc : List Node × Nat) node =>
    (acc.1 ++ [(updateNode env o degree activeDegree node acc.2).1],
     (updateNode env o degree activeDegree node acc.2).2)) ([], k0)

/-- The pulse sub-step of `evolveDummyNetwork` (skipped under
`mutationOnly`): per node, jitter the activation and resample the flag. -/
def pulsePass (env : EnvR) (p : PulseOpts) (nodes : List Node) (k0 : Nat) : List Node × Nat :=
  nodes.foldl (fun (acc : List Node × Nat) node =>
    let r1 := env.stream acc.2
    let r2 := env.stream (acc.2 + 1)
    let newActivation := clamp (node.activation + (r1 - 1/2) * p.activationJitter) 0 1
    let a2 := decide (r2 < p.activeChance)
    (acc.1 ++ [{ node with activation := newActivation, active := a2 }], acc.2 + 2)) ([], k0)

/-- The removal sub-step: pick `Math.floor(r * length)`, drop that index and
cascade-drop children of a removed base-layer node (no cascade when the
removed node is itself auxiliary).  An out-of-range pick leaves the list
unchanged, exactly as `nodes[removeIndex]` being `undefined` does. -/
def removePass (r : ℚ) (nodes : List Node) : List Node :=
  let fi := Rat.floor (r * (nodes.length : ℚ))
  let removedOpt := if 0 ≤ fi then nodes.get? fi.toNat else none
  (nodes.enum.filter (fun p =>
    if 0 ≤ fi ∧ p.1 = fi.toNat then false
    else
      match removedOpt with
      | none => true
      | some removed =>
        if removed.layer ≠ "bridge" ∧ removed.layer ≠ "end-noise" ∧
           removed.layer ≠ "sub-strand" ∧ removed.layer ≠ "floating" then
          ¬(p.2.parentId = some removed.id ∨ p.2.parentA = some removed.id ∨
            p.2.parentB = some removed.id)
        else true)).map Prod.snd

/-- `evolveDummyNetwork(prev, options)`: optional pulse, probabilistic
add/remove mutation, auxiliary refresh (end-noise gated by `spawnChance`),
link rebuild via `buildStrandLinks`, and the optional node update from the
resulting links.  Returns the next network and the final random cursor;
`none` when the padding loop inside the rebuild ran out of fuel. -/
def evolveDummyNetwork (cfg : Cfg) (env : EnvR) (opts : EvolveOpts) (prev : Network)
    (fuel : Nat) (k0 : Nat) : Option (Network × Nat) :=
  let pulsed := if opts.mutationOnly then (prev.nodes, k0) else pulsePass env opts.pulse prev.nodes k0
  let baseNodes := pulsed.1
  let k1 := pulsed.2
  let rAdd := env.stream k1
  let added :=
    if rAdd < opts.mutation.addProbability ∧ (baseNodes.length : ℚ) < opts.mutation.maxNodes then
      let nextId := getNextNodeId baseNodes
      let rAct := env.stream (k1 + 1)
      let lay := if baseNodes.length < 6 then "input" else "hidden"
      (baseNodes ++ [{ id := nextId, layer := lay, activation := rAct * 6/10, active := true }], k1 + 2)
    else (baseNodes, k1 + 1)
  let nodes2 := added.1
  let k2 := added.2
  let rRem := env.stream k2
  let removed :=
    if rRem < opts.mutation.removeProbability ∧ opts.mutation.minNodes < nodes2.length then
      (removePass (env.stream (k2 + 1)) nodes2, k2 + 2)
    else (nodes2, k2 + 1)
  let nodes3 := removed.1
  let k3 := removed.2
  let nodes4 := addBridgeNodes cfg env nodes3
  let nodes5 := addSubStrandNodes cfg env nodes4
  let rSpawn := env.stream k3
  let nodes6 := if rSpawn < cfg.ends.spawnChance then addEndNoiseNodes cfg env nodes5 else nodes5
  let k4 := k3 + 1
  let nodes7 := addFloatingNodes cfg env nodes6
  match buildStrandLinksFull cfg env nodes7 opts.mutation.linkCount fuel k4 with
  | none => none
  | some stB =>
    let links := stB.links.take opts.mutation.linkCount
    let updated :=
      if opts.mutation.updateNodesOnRelink then
        updateNodesFromLinks env opts.mutation.linkUpdate nodes7 links stB.k
      else (nodes7, stB.k)
    some ({ nodes := updated.1, links := links }, updated.2)

/-- The task-driven parameters the evolution effect reads. -/
structure NetworkParams where
  targetNodeCount : Nat
  targetLinkCount : Nat
  growthRate : ℚ
  pruningRate : ℚ
  linkStability : ℚ
deriving Repr, DecidableEq

/-- The observable outcome of one scheduler tick: the next live topology,
the freshly built links of this tick (kept or discarded), and the event
fields the source dispatches, plus the internal rebuild decision and the
final random cursor. -/
structure TickResult where
  nodes : List Node
  links : List Link
  freshLinks : List Link
  nodesChanged : Bool
  shouldRebuildLinks : Bool
  linksRebuilt : Bool
  rebuildCounter : Nat
  k : Nat
deriving Repr, DecidableEq

/-- `minRebuildInterval = 10`. -/
def minRebuildInterval : Nat := 10

/-- `MOCK_DATA.simulation.pulse`. -/
def mockPulse : PulseOpts := ⟨38/100, 65/100⟩

/-- `MOCK_DATA.simulation.mutation.linkUpdate`. -/
def mockLinkUpdate : LinkUpdateOpts := ⟨35/100, 18/100, 45/100, 15/100⟩

/-- The `evolutionParams` object the evolution effect builds from the
task-driven `networkParams`, overriding the mock mutation parameters. -/
def evolutionParamsOf (p : NetworkParams) : EvolveOpts :=
  { pulse := mockPulse
    mutation :=
      { addProbability := p.growthRate
        removeProbability := p.pruningRate
        minNodes := max 2 (Rat.floor ((p.targetNodeCount : ℚ) * 5/10)).toNat
        maxNodes := max ((p.targetNodeCount : ℚ) + 10) ((p.targetNodeCount : ℚ) * 15/10)
        linkCount := p.targetLinkCount
        updateNodesOnRelink := true
        linkUpdate := mockLinkUpdate }
    mutationOnly := true }

/-- The `nodesChanged` test of the evolution effect. -/
def nodesChangedOf (prev next : Network) : Bool :=
  (next.nodes.length != prev.nodes.length) ||
  !(next.nodes.all (fun node => prev.nodes.any (fun prevNode => prevNode.id == node.id)))

/-- The `shouldRebuildLinks` decision together with the random cursor after
it: a membership change forces it; otherwise the stability draw happens
only once the minimum interval has elapsed (the `&&` short-circuits). -/
def rebuildDecision (env : EnvR) (p : NetworkParams) (rebuildCounter : Nat) (nc : Bool)
    (k1 : Nat) : Bool × Nat :=
  if nc then (true, k1)
  else if minRebuildInterval ≤ rebuildCounter then
    (decide (p.linkStability < env.stream k1), k1 + 1)
  else (false, k1)

/-- One tick of the evolution effect: evolve, detect membership change,
decide on a rebuild, then either keep the filtered previous links (when
enough survive), or force a rebuild, or fall through to the freshly built
links. -/
def schedTick (cfg : Cfg) (env : EnvR) (p : NetworkParams) (prev : Network)
    (rebuildCounter : Nat) (fuel : Nat) (k0 : Nat) : Option TickResult :=
  match evolveDummyNetwork cfg env (evolutionParamsOf p) prev fuel k0 with
  | none => none
  | some (next, k1) =>
    let nodesChanged := nodesChangedOf prev next
    let dec := rebuildDecision env p rebuildCounter nodesChanged k1
    let sr := dec.1
    let k2 := dec.2
    if sr = false ∧ 0 < prev.links.length then
      let existingLinks := prev.links.filter (fun link =>
        next.nodes.any (fun node => node.id == link.source) &&
        next.nodes.any (fun node => node.id == link.target))
      if (Rat.floor ((p.targetLinkCount : ℚ) * 6/10)).toNat ≤ existingLinks.length then
        some { nodes := next.nodes, links := existingLinks, freshLinks := next.links,
               nodesChanged := nodesChanged, shouldRebuildLinks := sr, linksRebuilt := false,
               rebuildCounter := rebuildCounter + 1, k := k2 }
      else
        some { nodes := next.nodes, links := next.links, freshLinks := next.links,
               nodesChanged := nodesChanged, shouldRebuildLinks := sr, linksRebuilt := true,
               rebuildCounter := 0, k := k2 }
    else if sr then
      some { nodes := next.nodes, links := next.links, freshLinks := next.links,
             nodesChanged := nodesChanged, shouldRebuildLinks := sr, linksRebuilt := true,
             rebuildCounter := 0, k := k2 }
    else
      some { nodes := next.nodes, links := next.links, freshLinks := next.links,
             nodesChanged := nodesChanged, shouldRebuildLinks := sr, linksRebuilt := false,
             rebuildCounter := rebuildCounter + 1, k := k2 }

/-- A sequence of scheduler ticks, each with its own task-driven parameters
and padding fuel, threading the live network, the rebuild counter and the
random cursor. -/
def runTicks (cfg : Cfg) (env : EnvR) :
    List (NetworkParams × Nat) → Network × Nat × Nat → Option (Network × Nat × Nat)
  | [], s => some s
  | (p, fuel) :: rest, (net, counter, k) =>
    match schedTick cfg env p net counter fuel k with
    | none => none
    | some r => runTicks cfg env rest (⟨r.nodes, r.links⟩, r.rebuildCounter, r.k)

/-- JS `| 0` (ToInt32): wrap to a signed 32-bit integer. -/
def toInt32 (n : Int) : Int := ((n + 2 ^ 31) % 2 ^ 32) - 2 ^ 31

/-- The `hashToUnit` method shared by `OrganicNode` and `OrganicLink`:
`hash = (hash * 31 + str.charCodeAt(i)) | 0` over the characters, then
`(Math.abs(hash) %% 10000) / 10000`.  The ids at play are ASCII, where the
UTF-16 code unit equals the code point `Char.toNat`. -/
def hashToUnit (value : String) : ℚ :=
  let h := value.data.foldl (fun h c => toInt32 (h * 31 + (c.toNat : Int))) 0
  ((h.natAbs % 10000 : Nat) : ℚ) / 10000

/-- The deterministic per-node animation state derived in the `OrganicNode`
constructor.  Fields the source multiplies by `Math.PI` are stored in units
of π (the rational factor), keeping every field in `ℚ`; this affects no
claim because only equality of the derived values is at stake. -/
structure OrganicNode where
  id : String
  index : Nat
  seed : ℚ
  birthTime : ℚ
  lifePhase : ℚ
  breathRate : ℚ
  pulseRate : ℚ
  driftPhaseX : ℚ
  driftPhaseY : ℚ
  driftPhaseZ : ℚ
  orbitPhase : ℚ
  orbitSpeed : ℚ
  glowIntensity : ℚ
  colorShift : ℚ
  morphPhase : ℚ
  morphSpeed : ℚ
deriving Repr, DecidableEq

/-- `new OrganicNode(id, index)`. -/
def mkOrganicNode (id : String) (index : Nat) : OrganicNode :=
  { id := id
    index := index
    seed := hashToUnit id
    birthTime := hashToUnit (id ++ ":birth") * 10
    lifePhase := hashToUnit (id ++ ":life") * 2
    breathRate := 6/10 + hashToUnit (id ++ ":breath") * 8/10
    pulseRate := 15/10 + hashToUnit (id ++ ":pulse") * 15/10
    driftPhaseX := hashToUnit (id ++ ":dx") * 4
    driftPhaseY := hashToUnit (id ++ ":dy") * 2
    driftPhaseZ := hashToUnit (id ++ ":dz") * 2
    orbitPhase := hashToUnit (id ++ ":orbit") * 2
    orbitSpeed := 2/10 + hashToUnit (id ++ ":orbitspeed") * 3/10
    glowIntensity := 7/10 + hashToUnit (id ++ ":glow") * 6/10
    colorShift := hashToUnit (id ++ ":color") * 3/10
    morphPhase := hashToUnit (id ++ ":morph") * 6
    morphSpeed := 3/10 + hashToUnit (id ++ ":morphspeed") * 4/10 }

/-- The deterministic per-link animation state derived in the `OrganicLink`
constructor; phase fields in units of π as for `OrganicNode`. -/
structure OrganicLink where
  sourceId : String
  targetId : String
  seed : ℚ
  flowSpeed : ℚ
  flowPhase : ℚ
  pulseWidth : ℚ
  curvature : ℚ
  wobbleSpeed : ℚ
  wobblePhase : ℚ
  wobbleAmp : ℚ
  intensity : ℚ
deriving Repr, DecidableEq

/-- `new OrganicLink(sourceId, targetId)`: every derived field is a hash of
the combined string `sourceId-targetId` plus a per-field suffix. -/
def mkOrganicLink (sourceId targetId : String) : OrganicLink :=
  { sourceId := sourceId
    targetId := targetId
    seed := hashToUnit (sourceId ++ "-" ++ targetId)
    flowSpeed := 15/10 + hashToUnit (sourceId ++ "-" ++ targetId ++ ":flow") * 2
    flowPhase := hashToUnit (sourceId ++ "-" ++ targetId ++ ":phase") * 2
    pulseWidth := 15/100 + hashToUnit (sourceId ++ "-" ++ targetId ++ ":pulse") * 2/10
    curvature := 3/10 + hashToUnit (sourceId ++ "-" ++ targetId ++ ":curv") * 4/10
    wobbleSpeed := 5/10 + hashToUnit (sourceId ++ "-" ++ targetId ++ ":wobspeed") * 8/10
    wobblePhase := hashToUnit (sourceId ++ "-" ++ targetId ++ ":wobphase") * 4
    wobbleAmp := 1/10 + hashToUnit (sourceId ++ "-" ++ targetId ++ ":wobamp") * 15/100
    intensity := 6/10 + hashToUnit (sourceId ++ "-" ++ targetId ++ ":intensity") * 4/10 }

/-- Degree of an id in a link list (both endpoints count). -/
def degreeIn (links : List Link) (id : String) : Nat :=
  links.countP (fun l => l.source == id) + links.countP (fun l => l.target == id)

/-- A string with no pipe character, so its `linkKey` parses unambiguously. -/
def pipeFreeP (x : String) : Prop := '|' ∉ x.data

/-- The links of `st2` extend those of `st1` (state passes only append). -/
def Grows (st1 st2 : BuildState) : Prop := ∃ tl, st2.links = st1.links ++ tl

/-- The seen-key set mirrors the link list (newest first) and has no
duplicates. -/
def KeysOK (st : BuildState) : Prop :=
  st.linkKeys = (st.links.map (fun l => linkKey l.source l.target)).reverse ∧ st.linkKeys.Nodup

/-- Every accumulated link is a non-self-loop between truthy endpoints
satisfying `P`. -/
def LinksOK (P : String → Prop) (st : BuildState) : Prop :=
  ∀ l ∈ st.links, l.source ≠ l.target ∧ l.source ≠ "" ∧ l.target ≠ "" ∧ P l.source ∧ P l.target

/-- The build-state invariant carried through every pass. -/
def Wf (P : String → Prop) (st : BuildState) : Prop := KeysOK st ∧ LinksOK P st

/-- A state transition that only appends links and preserves `Wf P`. -/
def Step (P : String → Prop) (st1 st2 : BuildState) : Prop :=
  Grows st1 st2 ∧ (Wf P st1 → Wf P st2)

/-- Some link with the given ordered endpoints is present. -/
def HasPair (s t : String) (st : BuildState) : Prop :=
  ∃ l ∈ st.links, l.source = s ∧ l.target = t

/-- The endpoint conditions `buildStrandLinks` needs so that every pushed
link satisfies `P` on both endpoints: node ids always, and parent
references only when the family pass that reads them is enabled. -/
def NodesOK (P : String → Prop) (cfg : Cfg) (nodes : List Node) : Prop :=
  (∀ n ∈ nodes, n.id ≠ "" → P n.id) ∧
  (cfg.bridgeNodes.enabled = true → ∀ n ∈ nodes, n.layer = "bridge" →
    ∀ q, (n.parentA = some q ∨ n.parentB = some q) → q ≠ "" → P q) ∧
  (cfg.subStrands.enabled = true → ∀ n ∈ nodes, n.layer = "sub-strand" →
    ∀ q, n.parentId = some q → q ≠ "" → P q) ∧
  (cfg.ends.enabled = true → ∀ n ∈ nodes, n.layer = "end-noise" →
    ∀ q, n.parentId = some q → q ≠ "" → P q)

/-- The auxiliary families whose link passes read parent references are all
disabled, as in the shipped `VISUAL_DEFAULTS`. -/
def AuxDisabled (cfg : Cfg) : Prop :=
  cfg.bridgeNodes.enabled = false ∧ cfg.subStrands.enabled = false ∧ cfg.ends.enabled = false

/-- The links of the previous tick that survive the endpoint filter against
the new node set. -/
def survivingLinks (prev : Network) (r : TickResult) : List Link :=
  prev.links.filter (fun link =>
    r.nodes.any (fun node => node.id == link.source) &&
    r.nodes.any (fun node => node.id == link.target))

/-- The first `n` spine pushes of one strand. -/
def spineFoldN (env : EnvR) (strand : List String) (n : Nat) (st : BuildState) : BuildState :=
  (List.range n).foldl
    (fun st i => pushD env (strand.getD i "") (strand.getD (i + 1) "") ((6 : ℚ)/10) st) st

/-- The ordered consecutive pairs of a strand, the pairs the spine loop
pushes. -/
def spinePairs (strand : List String) : List (String × String) :=
  (List.range (strand.length - 1)).map (fun i => (strand.getD i "", strand.getD (i + 1) ""))

def offGrouping : GroupingCfg := ⟨false, 8, 85/100, true⟩

def offSpider : SpiderCfg := ⟨false, 8, 6, 15/100, 2/10, 6/10, 75/100⟩

def offCross : CrossCfg := ⟨false, 15/10, 8/10⟩

def onCross : CrossCfg := ⟨true, 1/2, 45/100⟩

def offBridge : BridgeCfg := ⟨false, 3/10, 8/10, 6/10⟩

def onBridge : BridgeCfg := ⟨true, 3/10, 8/10, 6/10⟩

def offSub : SubCfg := ⟨false, 3/10, 6/10, 7/10⟩

def offEnds : EndsCfg := ⟨false, 1/2, 0⟩

def offFloat : FloatingCfg := ⟨false⟩

def offExtra : ExtraCfg := ⟨false, (2, 4), 1/10, 1/2, 1/2⟩

def offProx : ProximityCfg := ⟨false, 2, 4, 20, 2/10, 1/2, 6/10⟩

def offConn : ConnectivityCfg := ⟨false, 2, 1/10, 4/10, 6/10, true, 10⟩

/-- A stream that always returns 1/2, positions at the origin, empty aux
batches. -/
def envH : EnvR := ⟨fun _ => 1/2, fun _ => (0, 0, 0), fun _ => [], fun _ => [], fun _ => [], fun _ => []⟩

/-- Like `envH` but the third draw is 5/6 (it picks the padding source). -/
def env6 : EnvR := ⟨fun k => if k = 2 then 5/6 else 1/2, fun _ => (0, 0, 0), fun _ => [], fun _ => [], fun _ => [], fun _ => []⟩

def hNode (i : Nat) : Node := ⟨"n-" ++ toString i, "hidden", 1/2, true, none, none, none⟩

/-- A lone bridge node referencing two absent parents. -/
def bNode : Node := ⟨"b-0", "bridge", 1/2, true, none, some "n-0", some "n-1"⟩

/-- Two strands, cross-strand linking on, everything else off. -/
def cfg2 : Cfg := ⟨2, offGrouping, offSpider, onCross, offBridge, offSub, offEnds, offFloat, offExtra, offProx, offConn, none⟩

/-- Two strands, every optional feature off. -/
def cfg3 : Cfg := ⟨2, offGrouping, offSpider, offCross, offBridge, offSub, offEnds, offFloat, offExtra, offProx, offConn, none⟩

/-- Connectivity guarantee with `minLinksPerNode = 2`, unique targets and
attempt budget `M`. -/
def c6cc (M : Nat) : ConnectivityCfg := ⟨true, 2, 1/10, 4/10, 1/2, true, M⟩

/-- One strand, only the connectivity guarantee enabled, budget `M`. -/
def cfg6 (M : Nat) : Cfg := ⟨1, offGrouping, offSpider, offCross, offBridge, offSub, offEnds, offFloat, offExtra, offProx, c6cc M, none⟩

/-- Like `cfg2` but with the bridge-node family enabled. -/
def cfg10 : Cfg := ⟨2, offGrouping, offSpider, onCross, onBridge, offSub, offEnds, offFloat, offExtra, offProx, offConn, none⟩

/-- Target 4 nodes / 6 links, no growth or pruning. -/
def params7 : NetworkParams := ⟨4, 6, 0, 0, 1/2⟩

/-- Target 4 nodes / 2 links, growth probability 1. -/
def params1 : NetworkParams := ⟨4, 2, 1, 0, 1/2⟩

/-- Four nodes and four links, one of which references a removed node. -/
def prev7 : Network := ⟨[hNode 0, hNode 1, hNode 2, hNode 3],
  [⟨"n-0", "n-1", 1/2, true⟩, ⟨"n-1", "n-2", 1/2, true⟩, ⟨"n-2", "n-3", 1/2, true⟩,
   ⟨"n-3", "gone", 1/2, true⟩]⟩

/-- Four nodes and three links, all referencing present nodes. -/
def prev5 : Network := ⟨[hNode 0, hNode 1, hNode 2, hNode 3],
  [⟨"n-0", "n-1", 1/2, true⟩, ⟨"n-1", "n-2", 1/2, true⟩, ⟨"n-2", "n-3", 1/2, true⟩]⟩

def c2links : List Link := [⟨"n-0", "n-1", 1/2, true⟩, ⟨"n-1", "n-0", 1/2, true⟩]

def c6links : List Link :=
  [⟨"n-0", "n-1", 3/5, true⟩, ⟨"n-1", "n-2", 3/5, true⟩, ⟨"n-2", "n-1", 13/40, true⟩]

/-- The build state of the `cfg6` run after the padding loop, at random
cursor `k`. -/
def stC6 (k : Nat) : BuildState :=
  ⟨k, [linkKey "n-2" "n-1", linkKey "n-1" "n-2", linkKey "n-0" "n-1"], c6links,
   [("n-0", 1), ("n-1", 3), ("n-2", 2)]⟩

/-- The full build state of the `cfg3` four-node run. -/
def st4X : BuildState :=
  ⟨2, [linkKey "n-1" "n-3", linkKey "n-0" "n-2"],
   [⟨"n-0", "n-2", 3/5, true⟩, ⟨"n-1", "n-3", 3/5, true⟩],
   [("n-0", 1), ("n-2", 1), ("n-1", 1), ("n-3", 1)]⟩

/-- The state the divergent padding loop reaches after its first iteration,
parameterised by the random cursor: one link, whose key the loop then draws
again forever. -/
def stPad (k : Nat) : BuildState :=
  ⟨k, [linkKey "n-1" "n-0"], [⟨"n-1", "n-0", 13/40, true⟩], [("n-1", 1), ("n-0", 1)]⟩

-- Helper lemmas about loop exits.

instance (x : String) : Decidable (pipeFreeP x) :=
  inferInstanceAs (Decidable ('|' ∉ x.data))

/-- A hidden node after one no-change link-update tick (activation
`0.35 + 0.45 * (2/RC) * (1/2)` with both degrees 2... computed 27/40). -/
def n2740 (i : Nat) : Node := ⟨"n-" ++ toString i, "hidden", 27/40, true, none, none, none⟩

/-- The fresh links the C7 tick builds (and discards on retention). -/
def fresh7 : List Link :=
  [⟨"n-0", "n-2", 3/5, true⟩, ⟨"n-1", "n-3", 3/5, true⟩, ⟨"n-0", "n-1", 1/2, true⟩,
   ⟨"n-1", "n-0", 1/2, true⟩, ⟨"n-0", "n-3", 9/20, true⟩, ⟨"n-1", "n-2", 9/20, true⟩]

/-- The C7 tick outcome: links retained, counter advanced, no rebuild. -/
def r7res : TickResult :=
  ⟨[n2740 0, n2740 1, n2740 2, n2740 3], prev5.links, fresh7, false, false, false, 1, 15⟩

/-- The C5 run outcome after one tick from `prev5`. -/
def c5res : Network × Nat × Nat := (⟨[n2740 0, n2740 1, n2740 2, n2740 3], prev5.links⟩, 1, 15)

/-- One node with a stale self-loop link; growth probability 1 adds n-1. -/
def prev1 : Network := ⟨[hNode 0], [⟨"n-0", "n-0", 1/2, true⟩]⟩

/-- The C1 tick outcome: membership changed, links rebuilt. -/
def c1res : TickResult :=
  ⟨[⟨"n-0", "hidden", 27/40, true, none, none, none⟩,
    ⟨"n-1", "input", 19/40, true, none, none, none⟩],
   c2links, c2links, true, true, true, 0, 8⟩

/-- The derived (id-hashed) fields of an `OrganicNode`, without the stored
`id` and `index`. -/
def nodePhase (o : OrganicNode) : ℚ × ℚ × ℚ × ℚ × ℚ × ℚ × ℚ × ℚ × ℚ × ℚ × ℚ × ℚ × ℚ × ℚ :=
  (o.seed, o.birthTime, o.lifePhase, o.breathRate, o.pulseRate, o.driftPhaseX, o.driftPhaseY,
   o.driftPhaseZ, o.orbitPhase, o.orbitSpeed, o.glowIntensity, o.colorShift, o.morphPhase,
   o.morphSpeed)

/-- The derived (key-hashed) fields of an `OrganicLink`, without the stored
endpoint ids. -/
def linkPhase (o : OrganicLink) : ℚ × ℚ × ℚ × ℚ × ℚ × ℚ × ℚ × ℚ × ℚ :=
  (o.seed, o.flowSpeed, o.flowPhase, o.pulseWidth, o.curvature, o.wobbleSpeed, o.wobblePhase,
   o.wobbleAmp, o.intensity)

theorem grows_refl (st : BuildState) : Grows st st := ⟨[], by simp⟩

theorem grows_trans {a b c : BuildState} (h1 : Grows a b) (h2 : Grows b c) : Grows a c := by
  obtain ⟨t1, e1⟩ := h1
  obtain ⟨t2, e2⟩ := h2
  exact ⟨t1 ++ t2, by rw [e2, e1, List.append_assoc]⟩

theorem step_refl (P : String → Prop) (st : BuildState) : Step P st st :=
  ⟨grows_refl st, id⟩

theorem step_trans {P : String → Prop} {a b c : BuildState}
    (h1 : Step P a b) (h2 : Step P b c) : Step P a c :=
  ⟨grows_trans h1.1 h2.1, fun w => h2.2 (h1.2 w)⟩

theorem hasPair_mono {s t : String} {st st' : BuildState} (h : Grows st st')
    (hp : HasPair s t st) : HasPair s t st' := by
  obtain ⟨tl, e⟩ := h
  obtain ⟨l, hl, he⟩ := hp
  exact ⟨l, by rw [e]; exact List.mem_append_left _ hl, he⟩

theorem pushLink_step (P : String → Prop) (s t : String) (w : ℚ) (a : Bool) (st : BuildState)
    (hs : s ≠ "" → P s) (ht : t ≠ "" → P t) : Step P st (pushLink s t w a st) := by
  unfold pushLink
  by_cases h1 : s = "" ∨ t = "" ∨ s = t
  · simp only [if_pos h1]
    exact step_refl P st
  · simp only [if_neg h1]
    by_cases h2 : linkKey s t ∈ st.linkKeys
    · simp only [if_pos h2]
      exact step_refl P st
    · simp only [if_neg h2]
      push_neg at h1
      refine ⟨⟨[⟨s, t, w, a⟩], rfl⟩, fun hw => ⟨⟨?_, ?_⟩, ?_⟩⟩
      · simp only [List.map_append, List.reverse_append, List.map_cons, List.map_nil,
          List.reverse_cons, List.reverse_nil, List.nil_append, List.singleton_append]
        rw [hw.1.1]
      · exact List.Nodup.cons h2 hw.1.2
      · intro l hl
        rcases List.mem_append.1 hl with h | h
        · exact hw.2 l h
        · rcases List.mem_singleton.1 h with rfl
          exact ⟨h1.2.2, h1.1, h1.2.1, hs h1.1, ht h1.2.1⟩

theorem randQ_links (env : EnvR) (st : BuildState) : (randQ env st).2.links = st.links := rfl

theorem randQ_wf (P : String → Prop) (env : EnvR) (st : BuildState) :
    Step P st (randQ env st).2 :=
  ⟨⟨[], by simp [randQ]⟩, fun hw => hw⟩

theorem pushD_step (P : String → Prop) (env : EnvR) (s t : String) (w : ℚ) (st : BuildState)
    (hs : s ≠ "" → P s) (ht : t ≠ "" → P t) : Step P st (pushD env s t w st) := by
  unfold pushD randQ
  exact step_trans (randQ_wf P env st) (pushLink_step P s t w _ _ hs ht)

theorem foldl_step (P : String → Prop) {α : Type} (f : BuildState → α → BuildState) :
    ∀ (l : List α), (∀ st a, a ∈ l → Step P st (f st a)) →
      ∀ st, Step P st (l.foldl f st)
  | [], _, st => step_refl P st
  | a :: l, h, st => by
    simp only [List.foldl_cons]
    exact step_trans (h st a (List.mem_cons_self a l))
      (foldl_step P f l (fun st b hb => h st b (List.mem_cons_of_mem a hb)) (f st a))

theorem getD_mem_or {α : Type} (l : List α) (i : Nat) (d : α) :
    l.getD i d ∈ l ∨ l.getD i d = d := by
  by_cases h : i < l.length
  · left
    rw [List.getD_eq_getElem l d h]
    exact List.getElem_mem h
  · right
    exact List.getD_eq_default l d (Nat.le_of_not_lt h)

theorem stGet_cases (strands : List (List String)) (s i : Nat) :
    (∃ sub ∈ strands, stGet strands s i ∈ sub) ∨ stGet strands s i = "" := by
  unfold stGet
  rcases getD_mem_or strands s [] with h | h
  · rcases getD_mem_or (strands.getD s []) i "" with h2 | h2
    · exact Or.inl ⟨strands.getD s [], h, h2⟩
    · exact Or.inr h2
  · rw [h]
    exact Or.inr (by simp)

theorem idAtQ_cases (ids : List String) (q : ℚ) : idAtQ ids q ∈ ids ∨ idAtQ ids q = "" := by
  unfold idAtQ
  by_cases h : Rat.floor q < 0
  · simp only [if_pos h]
    exact Or.inr (by simp)
  · simp only [if_neg h]
    rcases getD_mem_or ids (Rat.floor q).toNat "" with h2 | h2
    · exact Or.inl h2
    · exact Or.inr h2

theorem setk_step (P : String → Prop) (st : BuildState) (m : Nat) :
    Step P st { st with k := m } :=
  ⟨⟨[], by simp⟩, fun h => h⟩

theorem listGetD_ok {P : String → Prop} {l : List String}
    (h : ∀ x ∈ l, x ≠ "" → P x) (i : Nat) :
    l.getD i "" ≠ "" → P (l.getD i "") := by
  intro hne
  rcases getD_mem_or l i "" with hm | he
  · exact h _ hm hne
  · exact absurd he hne

theorem stGet_ok {P : String → Prop} {strands : List (List String)}
    (h : ∀ sub ∈ strands, ∀ x ∈ sub, x ≠ "" → P x) (s i : Nat) :
    stGet strands s i ≠ "" → P (stGet strands s i) := by
  intro hne
  rcases stGet_cases strands s i with ⟨sub, hsub, hmem⟩ | he
  · exact h sub hsub _ hmem hne
  · exact absurd he hne

theorem idAtQ_ok {P : String → Prop} {ids : List String}
    (h : ∀ x ∈ ids, x ≠ "" → P x) (q : ℚ) :
    idAtQ ids q ≠ "" → P (idAtQ ids q) := by
  intro hne
  rcases idAtQ_cases ids q with hm | he
  · exact h _ hm hne
  · exact absurd he hne

theorem spinePass_step (P : String → Prop) (env : EnvR) (strand : List String) (st : BuildState)
    (h : ∀ x ∈ strand, x ≠ "" → P x) : Step P st (spinePass env strand st) := by
  unfold spinePass
  exact foldl_step P _ _ (fun st i _ =>
    pushD_step P env _ _ _ st (listGetD_ok h i) (listGetD_ok h (i + 1))) st

theorem groupInner_step (P : String → Prop) (env : EnvR) (gc : GroupingCfg)
    (anchor : String) (group : List String) (st : BuildState)
    (ha : anchor ≠ "" → P anchor) (hg : ∀ x ∈ group, x ≠ "" → P x) :
    Step P st (groupInner env gc anchor group st) := by
  unfold groupInner
  refine foldl_step P _ _ (fun st j _ => ?_) st
  simp only [randQ]
  by_cases hc : env.stream st.k ≤ gc.intraLinkDensity
  · rw [if_pos hc]
    exact step_trans (setk_step P st _)
      (pushD_step P env _ _ _ _ ha (listGetD_ok hg (j + 1)))
  · rw [if_neg hc]
    exact setk_step P st _

theorem groupBody_step (P : String → Prop) (env : EnvR) (gc : GroupingCfg)
    (strand : List String) (st : BuildState) (start : Nat)
    (h : ∀ x ∈ strand, x ≠ "" → P x) : Step P st (groupBody env gc strand st start) := by
  unfold groupBody
  have hgroup : ∀ x ∈ (strand.drop start).take (max 1 gc.groupSize), x ≠ "" → P x :=
    fun x hx => h x (List.drop_subset start strand (List.take_subset _ _ hx))
  have hin := groupInner_step P env gc _ _ st (listGetD_ok hgroup 0) hgroup
  by_cases hb : gc.bridgeToNextGroup = true ∧ start + max 1 gc.groupSize < strand.length
  · rw [if_pos hb]
    by_cases hne : strand.getD (start + max 1 gc.groupSize) "" ≠ ""
    · rw [if_pos hne]
      exact step_trans hin (pushD_step P env _ _ _ _ (listGetD_ok hgroup 0) (listGetD_ok h _))
    · rw [if_neg hne]
      exact hin
  · rw [if_neg hb]
    exact hin

theorem groupingPass_step (P : String → Prop) (env : EnvR) (gc : GroupingCfg)
    (strand : List String) (st : BuildState)
    (h : ∀ x ∈ strand, x ≠ "" → P x) : Step P st (groupingPass env gc strand st) := by
  unfold groupingPass
  exact foldl_step P _ _ (fun st start _ => groupBody_step P env gc strand st start h) st

theorem strandPass_step (P : String → Prop) (env : EnvR) (cfg : Cfg)
    (strand : List String) (st : BuildState)
    (h : ∀ x ∈ strand, x ≠ "" → P x) : Step P st (strandPass env cfg strand st) := by
  unfold strandPass
  refine step_trans (spinePass_step P env strand st h) ?_
  by_cases hg : cfg.grouping.enabled ∧ 1 < max 1 cfg.grouping.groupSize
  · rw [if_pos hg]
    exact groupingPass_step P env cfg.grouping strand _ h
  · rw [if_neg hg]
    exact step_refl P _

theorem crossPass_step (P : String → Prop) (env : EnvR) (cc : CrossCfg) (K : Nat)
    (strands : List (List String)) (maxLen : Nat) (st : BuildState)
    (h : ∀ sub ∈ strands, ∀ x ∈ sub, x ≠ "" → P x) :
    Step P st (crossPass env cc K strands maxLen st) := by
  unfold crossPass
  refine foldl_step P _ _ (fun st i _ => ?_) st
  refine step_trans (foldl_step P _ _ (fun st s _ => ?_) st)
    (foldl_step P _ _ (fun st s _ => ?_) _)
  · by_cases hc : stGet strands s i ≠ "" ∧ stGet strands ((s + 1) % K) i ≠ ""
    · rw [if_pos hc]
      exact pushD_step P env _ _ _ _ (stGet_ok h s i) (stGet_ok h _ i)
    · rw [if_neg hc]
      exact step_refl P _
  · by_cases hc : stGet strands s i ≠ "" ∧ stGet strands ((s + 1) % K) (i + 1) ≠ ""
    · rw [if_pos hc]
      exact pushD_step P env _ _ _ _ (stGet_ok h s i) (stGet_ok h _ _)
    · rw [if_neg hc]
      exact step_refl P _

theorem spiderPass_step (P : String → Prop) (env : EnvR) (sc : SpiderCfg) (K : Nat)
    (strands : List (List String)) (maxLen : Nat) (st : BuildState)
    (h : ∀ sub ∈ strands, ∀ x ∈ sub, x ≠ "" → P x) :
    Step P st (spiderPass env sc K strands maxLen st) := by
  unfold spiderPass
  refine foldl_step P _ _ (fun st i _ => ?_) st
  refine foldl_step P _ _ (fun st s _ => ?_) st
  by_cases hc : stGet strands s i = ""
  · rw [if_pos hc]
    exact step_refl P _
  · rw [if_neg hc]
    refine step_trans (foldl_step P _ _ (fun st o _ => ?_) st)
      (foldl_step P _ _ (fun st o _ => ?_) _)
    · by_cases hn : stGet strands ((s + (o + 1)) % K) i ≠ ""
      · rw [if_pos hn]
        simp only [randQ]
        by_cases hskip : sc.skipChance < env.stream st.k
        · rw [if_pos hskip]
          exact step_trans (setk_step P st _)
            (pushLink_step P _ _ _ _ _ (stGet_ok h s i) (stGet_ok h _ i))
        · rw [if_neg hskip]
          exact setk_step P st _
      · rw [if_neg hn]
        exact step_refl P _
    · by_cases hn : stGet strands ((s + 1) % K) (i + (o + 1)) ≠ ""
      · rw [if_pos hn]
        simp only [randQ]
        by_cases hskip : sc.skipChance < env.stream st.k
        · rw [if_pos hskip]
          exact step_trans (setk_step P st _)
            (pushLink_step P _ _ _ _ _ (stGet_ok h s i) (stGet_ok h _ _))
        · rw [if_neg hskip]
          exact setk_step P st _
      · rw [if_neg hn]
        exact step_refl P _

theorem bridgeLinkPass_step (P : String → Prop) (env : EnvR) (bc : BridgeCfg)
    (nodes : List Node) (st : BuildState)
    (hn : ∀ n ∈ nodes, (n.id ≠ "" → P n.id) ∧
      (n.layer = "bridge" → ∀ q, (n.parentA = some q ∨ n.parentB = some q) → q ≠ "" → P q)) :
    Step P st (bridgeLinkPass env bc nodes st) := by
  unfold bridgeLinkPass
  refine foldl_step P _ _ (fun st n hmem => ?_) st
  by_cases hl : n.layer ≠ "bridge"
  · rw [if_pos hl]
    exact step_refl P st
  · rw [if_neg hl]
    refine foldl_step P _ _ (fun st parentId hp => ?_) st
    have hp2 : (n.parentA = some parentId ∨ n.parentB = some parentId) ∧ parentId ≠ "" := by
      simp only [List.mem_filter, List.mem_filterMap, List.mem_cons, List.mem_singleton,
        decide_eq_true_eq] at hp
      obtain ⟨⟨q, hq1, hq2⟩, hq3⟩ := hp
      subst hq2
      rcases hq1 with h | h | h
      · exact ⟨Or.inl h.symm, hq3⟩
      · exact ⟨Or.inr h.symm, hq3⟩
      · cases h
    simp only [randQ]
    exact step_trans (setk_step P st _)
      (pushLink_step P _ _ _ _ _
        (fun _ => (hn n hmem).2 (not_not.1 hl) parentId hp2.1 hp2.2) (hn n hmem).1)

theorem subLinkPass_step (P : String → Prop) (env : EnvR) (sc : SubCfg)
    (nodes : List Node) (st : BuildState)
    (hn : ∀ n ∈ nodes, (n.id ≠ "" → P n.id) ∧
      (n.layer = "sub-strand" → ∀ q, n.parentId = some q → q ≠ "" → P q)) :
    Step P st (subLinkPass env sc nodes st) := by
  unfold subLinkPass
  refine step_trans (foldl_step P _ _ (fun st n hmem => ?_) st)
    (foldl_step P _ _ (fun st pid _ => ?_) _)
  · by_cases hl : n.layer ≠ "sub-strand"
    · rw [if_pos hl]
      exact step_refl P st
    · rw [if_neg hl]
      by_cases hne : n.parentId.getD "" = ""
      · rw [if_pos hne]
        exact step_refl P st
      · rw [if_neg hne]
        have hpP : n.parentId.getD "" ≠ "" → P (n.parentId.getD "") := by
          intro h2
          cases hp : n.parentId with
          | none => rw [hp] at h2; exact absurd rfl h2
          | some q =>
            simp only [hp, Option.getD_some] at h2 ⊢
            exact (hn n hmem).2 (not_not.1 hl) q hp h2
        simp only [randQ]
        have h1 : Step P st (pushD env (n.parentId.getD "") n.id sc.parentLinkWeight
            { st with k := st.k + 1 }) :=
          step_trans (setk_step P st _) (pushD_step P env _ _ _ _ hpP (hn n hmem).1)
        by_cases hc : env.stream (pushD env (n.parentId.getD "") n.id sc.parentLinkWeight
            { st with k := st.k + 1 }).k < (1 : ℚ)/2
        · rw [if_pos hc]
          exact step_trans (step_trans h1 (setk_step P _ _))
            (pushD_step P env _ _ _ _ hpP (hn n hmem).1)
        · rw [if_neg hc]
          exact step_trans h1 (setk_step P _ _)
  · refine foldl_step P _ _ (fun st i _ => ?_) _
    simp only [randQ]
    have hlst : ∀ (i : Nat),
        (((nodes.filter (fun n => n.layer == "sub-strand" && n.parentId.getD "" != "")).filter
          (fun n => n.parentId.getD "" == pid)).getD i dNode).id ≠ "" →
        P (((nodes.filter (fun n => n.layer == "sub-strand" && n.parentId.getD "" != "")).filter
          (fun n => n.parentId.getD "" == pid)).getD i dNode).id := by
      intro i hne
      rcases getD_mem_or ((nodes.filter
        (fun n => n.layer == "sub-strand" && n.parentId.getD "" != "")).filter
          (fun n => n.parentId.getD "" == pid)) i dNode with hm | he
      · exact (hn _ (List.mem_of_mem_filter (List.mem_of_mem_filter hm))).1 hne
      · rw [he] at hne
        exact absurd rfl hne
    exact step_trans (setk_step P st _)
      (pushD_step P env _ _ _ _ (hlst i) (hlst (i + 1)))

theorem endsLinkPass_step (P : String → Prop) (env : EnvR)
    (nodes : List Node) (st : BuildState)
    (hn : ∀ n ∈ nodes, (n.id ≠ "" → P n.id) ∧
      (n.layer = "end-noise" → ∀ q, n.parentId = some q → q ≠ "" → P q)) :
    Step P st (endsLinkPass env nodes st) := by
  unfold endsLinkPass
  refine foldl_step P _ _ (fun st n hmem => ?_) st
  by_cases hl : n.layer ≠ "end-noise"
  · rw [if_pos hl]
    exact step_refl P st
  · rw [if_neg hl]
    by_cases hne : n.parentId.getD "" = ""
    · rw [if_pos hne]
      exact step_refl P st
    · rw [if_neg hne]
      have hpP : n.parentId.getD "" ≠ "" → P (n.parentId.getD "") := by
        intro h2
        cases hp : n.parentId with
        | none => rw [hp] at h2; exact absurd rfl h2
        | some q =>
          simp only [hp, Option.getD_some] at h2 ⊢
          exact (hn n hmem).2 (not_not.1 hl) q hp h2
      simp only [randQ]
      exact step_trans (setk_step P st _)
        (pushLink_step P _ _ _ _ _ hpP (hn n hmem).1)

theorem extraPass_step (P : String → Prop) (env : EnvR) (cfg : Cfg)
    (ids : List String) (st : BuildState)
    (hids : ∀ x ∈ ids, x ≠ "" → P x) : Step P st (extraPass env cfg ids st) := by
  unfold extraPass
  refine foldl_step P _ _ (fun st source hs => ?_) st
  simp only [randQ]
  refine step_trans (setk_step P st _) (foldl_step P _ _ (fun st _ _ => ?_) _)
  exact step_trans (setk_step P st _)
    (pushLink_step P _ _ _ _ _ (hids source hs) (idAtQ_ok hids _))

theorem padLoop_step (P : String → Prop) (env : EnvR) (ids : List String) (linkCount : Nat)
    (hids : ∀ x ∈ ids, x ≠ "" → P x) :
    ∀ (fuel : Nat) (st st' : BuildState),
      padLoop env ids linkCount fuel st = some st' → Step P st st' := by
  intro fuel
  induction fuel with
  | zero =>
    intro st st' h
    unfold padLoop at h
    split at h
    · cases h
    · cases h
      exact step_refl P st
  | succ fuel ih =>
    intro st st' h
    unfold padLoop at h
    split at h
    · simp only [randQ] at h
      have hrest := ih _ _ h
      refine step_trans ?_ hrest
      refine step_trans (setk_step P st _) (pushD_step P env _ _ _ _ (idAtQ_ok hids _) ?_)
      split
      · exact listGetD_ok hids _
      · exact idAtQ_ok hids _
    · cases h
      exact step_refl P st

theorem nodeGetD_ok {P : String → Prop} {nodes : List Node}
    (hn : ∀ n ∈ nodes, n.id ≠ "" → P n.id) (j : Nat) :
    (nodes.getD j dNode).id ≠ "" → P (nodes.getD j dNode).id := by
  intro hne
  rcases getD_mem_or nodes j dNode with hm | he
  · exact hn _ hm hne
  · rw [he] at hne
    exact absurd rfl hne

theorem proxInner_step (P : String → Prop) (env : EnvR) (pc : ProximityCfg)
    (nodes : List Node) (source : String) (idx : Nat)
    (hs : source ≠ "" → P source)
    (hn : ∀ n ∈ nodes, n.id ≠ "" → P n.id) :
    ∀ (js : List Nat) (added : Nat) (st : BuildState),
      Step P st (proxInner env pc nodes source idx js added st)
  | [], _, st => step_refl P st
  | j :: rest, added, st => by
    unfold proxInner
    by_cases h1 : j = idx
    · rw [if_pos h1]
      exact proxInner_step P env pc nodes source idx hs hn rest added st
    · rw [if_neg h1]
      by_cases h2 : (nodes.getD j dNode).id = ""
      · rw [if_pos h2]
        exact proxInner_step P env pc nodes source idx hs hn rest added st
      · rw [if_neg h2]
        simp only [randQ]
        by_cases hd : 0 ≤ pc.distance ∧
            ((env.pos idx).1 - (env.pos j).1) * ((env.pos idx).1 - (env.pos j).1) +
              ((env.pos idx).2.1 - (env.pos j).2.1) * ((env.pos idx).2.1 - (env.pos j).2.1) +
              ((env.pos idx).2.2 - (env.pos j).2.2) * ((env.pos idx).2.2 - (env.pos j).2.2) ≤
            pc.distance * pc.distance
        · rw [if_pos hd]
          by_cases hm : pc.maxPerNode ≤ added + 1
          · rw [if_pos hm]
            exact step_trans (setk_step P st _)
              (pushLink_step P _ _ _ _ _ hs (nodeGetD_ok hn j))
          · rw [if_neg hm]
            refine step_trans ?_
              (proxInner_step P env pc nodes source idx hs hn rest (added + 1) _)
            exact step_trans (setk_step P st _)
              (pushLink_step P _ _ _ _ _ hs (nodeGetD_ok hn j))
        · rw [if_neg hd]
          exact proxInner_step P env pc nodes source idx hs hn rest added st

theorem proxPass_step (P : String → Prop) (env : EnvR) (pc : ProximityCfg)
    (nodes : List Node) (st : BuildState)
    (hn : ∀ n ∈ nodes, n.id ≠ "" → P n.id) : Step P st (proxPass env pc nodes st) := by
  unfold proxPass
  refine foldl_step P _ _ (fun st idx _ => ?_) st
  by_cases h1 : (nodes.getD idx dNode).id = ""
  · rw [if_pos h1]
    exact step_refl P st
  · rw [if_neg h1]
    exact proxInner_step P env pc nodes _ idx (nodeGetD_ok hn idx) hn _ 0 st

theorem connLoop_step (P : String → Prop) (env : EnvR) (cc : ConnectivityCfg)
    (ids : List String) (source : String) (needed : Nat)
    (hs : source ≠ "" → P source)
    (hids : ∀ x ∈ ids, x ≠ "" → P x) :
    ∀ (a : Nat) (used : List String) (st : BuildState),
      Step P st (connLoop env cc ids source needed a used st)
  | 0, _, st => step_refl P st
  | a + 1, used, st => by
    unfold connLoop
    split
    · simp only [randQ]
      split
      · refine step_trans ?_ (connLoop_step P env cc ids source needed hs hids a used _)
        exact setk_step P st _
      · split
        · refine step_trans ?_ (connLoop_step P env cc ids source needed hs hids a used _)
          exact setk_step P st _
        · refine step_trans ?_ (connLoop_step P env cc ids source needed hs hids a _ _)
          exact step_trans (setk_step P st _)
            (pushLink_step P _ _ _ _ _ hs (idAtQ_ok hids _))
    · exact step_refl P st

theorem connPass_step (P : String → Prop) (env : EnvR) (cc : ConnectivityCfg)
    (ids : List String) (st : BuildState)
    (hids : ∀ x ∈ ids, x ≠ "" → P x) : Step P st (connPass env cc ids st) := by
  unfold connPass
  refine foldl_step P _ _ (fun st source hsm => ?_) st
  show Step P st
    (if max 1 cc.minLinksPerNode ≤ degGet st.degree source then st
     else connLoop env cc ids source (max 1 cc.minLinksPerNode - degGet st.degree source)
       (max 1 (if cc.maxAttempts = 0 then 6 else cc.maxAttempts)) [] st)
  by_cases hd : max 1 cc.minLinksPerNode ≤ degGet st.degree source
  · rw [if_pos hd]
    exact step_refl P st
  · rw [if_neg hd]
    exact connLoop_step P env cc ids source _ (hids source hsm) hids _ [] st

theorem ite_step (P : String → Prop) (c : Prop) [Decidable c]
    (f : BuildState → BuildState) (st : BuildState)
    (hf : Step P st (f st)) : Step P st (if c then f st else st) := by
  by_cases h : c
  · rw [if_pos h]
    exact hf
  · rw [if_neg h]
    exact step_refl P st

theorem ite_step_of (P : String → Prop) (c : Prop) [Decidable c]
    (f : BuildState → BuildState) (st : BuildState)
    (hf : c → Step P st (f st)) : Step P st (if c then f st else st) := by
  by_cases h : c
  · rw [if_pos h]
    exact hf h
  · rw [if_neg h]
    exact step_refl P st

theorem roundRobin_mem {x : String} {K : Nat} {l : List String} {sub : List String}
    (hsub : sub ∈ roundRobin K l) (hx : x ∈ sub) : x ∈ l := by
  unfold roundRobin at hsub
  obtain ⟨s, _, rfl⟩ := List.mem_map.1 hsub
  have h1 : ((l.enum.filter (fun p => p.1 % K == s)).map Prod.snd).Sublist (l.enum.map Prod.snd) :=
    (List.filter_sublist _).map Prod.snd
  rw [List.enum_map_snd] at h1
  exact h1.subset hx

theorem nodesOK_ids {P : String → Prop} {cfg : Cfg} {nodes : List Node}
    (hN : NodesOK P cfg nodes) : ∀ x ∈ stIds nodes, x ≠ "" → P x := by
  intro x hx hne
  obtain ⟨n, hn, rfl⟩ := List.mem_map.1 hx
  exact hN.1 n hn hne

theorem nodesOK_strands {P : String → Prop} {cfg : Cfg} {nodes : List Node}
    (hN : NodesOK P cfg nodes) :
    ∀ sub ∈ strandsOf cfg nodes, ∀ x ∈ sub, x ≠ "" → P x := by
  intro sub hsub x hx hne
  have h1 : x ∈ (baseNodesOf nodes).map (·.id) := roundRobin_mem hsub hx
  obtain ⟨n, hn, rfl⟩ := List.mem_map.1 h1
  exact hN.1 n (List.mem_of_mem_filter hn) hne

theorem buildPre_step (P : String → Prop) (cfg : Cfg) (env : EnvR)
    (nodes : List Node) (k0 : Nat) (hN : NodesOK P cfg nodes) :
    Step P ⟨k0, [], [], []⟩ (buildPre cfg env nodes k0) := by
  have hids := nodesOK_ids hN
  have hstr := nodesOK_strands hN
  unfold buildPre
  refine step_trans (foldl_step P _ _
    (fun st strand hmem => strandPass_step P env cfg strand st (hstr strand hmem)) _) ?_
  refine step_trans (ite_step P (cfg.crossStrand.enabled = true)
    (crossPass env cfg.crossStrand (strandCountOf cfg) (strandsOf cfg nodes)
      (maxLenOf (strandsOf cfg nodes))) _
    (crossPass_step P env cfg.crossStrand (strandCountOf cfg) (strandsOf cfg nodes)
      (maxLenOf (strandsOf cfg nodes)) _ hstr)) ?_
  refine step_trans (ite_step P (cfg.spiderWeb.enabled = true)
    (spiderPass env cfg.spiderWeb (strandCountOf cfg) (strandsOf cfg nodes)
      (maxLenOf (strandsOf cfg nodes))) _
    (spiderPass_step P env cfg.spiderWeb (strandCountOf cfg) (strandsOf cfg nodes)
      (maxLenOf (strandsOf cfg nodes)) _ hstr)) ?_
  refine step_trans (ite_step_of P (cfg.bridgeNodes.enabled = true)
    (bridgeLinkPass env cfg.bridgeNodes nodes) _ (fun hb =>
      bridgeLinkPass_step P env _ nodes _
        (fun n hn => ⟨hN.1 n hn, fun hlay q hq => hN.2.1 hb n hn hlay q hq⟩))) ?_
  refine step_trans (ite_step_of P (cfg.subStrands.enabled = true)
    (subLinkPass env cfg.subStrands nodes) _ (fun hb =>
      subLinkPass_step P env _ nodes _
        (fun n hn => ⟨hN.1 n hn, fun hlay q hq => hN.2.2.1 hb n hn hlay q hq⟩))) ?_
  refine step_trans (ite_step_of P (cfg.ends.enabled = true)
    (endsLinkPass env nodes) _ (fun hb =>
      endsLinkPass_step P env nodes _
        (fun n hn => ⟨hN.1 n hn, fun hlay q hq => hN.2.2.2 hb n hn hlay q hq⟩))) ?_
  exact ite_step P (cfg.extraRandomLinks.enabled = true ∧ 1 < (stIds nodes).length)
    (extraPass env cfg (stIds nodes)) _ (extraPass_step P env cfg (stIds nodes) _ hids)

theorem buildPost_step (P : String → Prop) (cfg : Cfg) (env : EnvR)
    (nodes : List Node) (st8 : BuildState) (hN : NodesOK P cfg nodes) :
    Step P st8 (buildPost cfg env nodes st8) := by
  have hids := nodesOK_ids hN
  unfold buildPost
  refine step_trans (ite_step P (cfg.proximityLinks.enabled = true ∧ 1 < (stIds nodes).length)
    (proxPass env cfg.proximityLinks nodes) _
    (proxPass_step P env cfg.proximityLinks nodes _ hN.1)) ?_
  exact ite_step P (cfg.ensureConnectivity.enabled = true ∧ 1 < (stIds nodes).length)
    (connPass env cfg.ensureConnectivity (stIds nodes)) _
    (connPass_step P env cfg.ensureConnectivity (stIds nodes) _ hids)

theorem wf_init (P : String → Prop) (k0 : Nat) : Wf P ⟨k0, [], [], []⟩ := by
  refine ⟨⟨rfl, List.nodup_nil⟩, ?_⟩
  intro l hl
  cases hl

/-- Master invariant: a completed `buildStrandLinksFull` run is well
formed, for any endpoint predicate `P` compatible with the node list. -/
theorem buildStrandLinksFull_wf (P : String → Prop) (cfg : Cfg) (env : EnvR)
    (nodes : List Node) (linkCount fuel k0 : Nat) (st : BuildState)
    (hN : NodesOK P cfg nodes)
    (h : buildStrandLinksFull cfg env nodes linkCount fuel k0 = some st) :
    Wf P st ∧ Step P ⟨k0, [], [], []⟩ st := by
  unfold buildStrandLinksFull at h
  split at h
  · cases h
  · rename_i st8 hpad
    cases h
    have s1 := buildPre_step P cfg env nodes k0 hN
    have s2 := padLoop_step P env (stIds nodes) linkCount (nodesOK_ids hN) fuel _ _ hpad
    have s3 := buildPost_step P cfg env nodes st8 hN
    have stotal := step_trans (step_trans s1 s2) s3
    exact ⟨stotal.2 (wf_init P k0), stotal⟩

theorem updateNode_id (env : EnvR) (o : LinkUpdateOpts) (degree activeDegree : List (String × Nat))
    (node : Node) (k : Nat) : ((updateNode env o degree activeDegree node k).1).id = node.id := by
  simp only [updateNode]
  split <;> split <;> rfl

theorem foldUpdate_ids (g : Node → Nat → Node × Nat) (hg : ∀ n k, ((g n k).1).id = n.id) :
    ∀ (ns : List Node) (acc : List Node × Nat),
      ((ns.foldl (fun acc node => (acc.1 ++ [(g node acc.2).1], (g node acc.2).2)) acc).1).map (·.id)
        = acc.1.map (·.id) ++ ns.map (·.id) := by
  intro ns
  induction ns with
  | nil => intro acc; simp
  | cons n t ih =>
    intro acc
    simp only [List.foldl_cons]
    rw [ih]
    simp [hg]

theorem updateNodesFromLinks_ids (env : EnvR) (o : LinkUpdateOpts) (nodes : List Node)
    (links : List Link) (k0 : Nat) :
    (updateNodesFromLinks env o nodes links k0).1.map (·.id) = nodes.map (·.id) := by
  have h := foldUpdate_ids
    (updateNode env o
      (links.foldl (fun d l =>
        if l.source = "" ∨ l.target = "" then d else degBump (degBump d l.source) l.target) [])
      (links.foldl (fun d l =>
        if l.source = "" ∨ l.target = "" then d
        else if l.active then degBump (degBump d l.source) l.target else d) []))
    (fun n k => updateNode_id env o _ _ n k) nodes ([], k0)
  unfold updateNodesFromLinks
  simpa using h

theorem trivialNodesOK (cfg : Cfg) (nodes : List Node) :
    NodesOK (fun _ => True) cfg nodes :=
  ⟨fun _ _ _ => trivial, fun _ _ _ _ _ _ _ => trivial,
   fun _ _ _ _ _ _ _ => trivial, fun _ _ _ _ _ _ _ => trivial⟩

theorem buildStrandLinks_noSelf (cfg : Cfg) (env : EnvR) (nodes : List Node)
    (lc fuel k0 : Nat) (L : List Link)
    (h : buildStrandLinks cfg env nodes lc fuel k0 = some L) :
    ∀ l ∈ L, l.source ≠ l.target := by
  unfold buildStrandLinks at h
  cases hB : buildStrandLinksFull cfg env nodes lc fuel k0 with
  | none => rw [hB] at h; cases h
  | some st =>
    rw [hB] at h
    simp only [Option.map_some'] at h
    cases h
    intro l hl
    have hwf := (buildStrandLinksFull_wf (fun _ => True) cfg env nodes lc fuel k0 st
      (trivialNodesOK cfg nodes) hB).1
    exact (hwf.2 l (List.take_subset lc st.links hl)).1

theorem auxDisabled_nodesOK {cfg : Cfg} (nodes : List Node) (hA : AuxDisabled cfg) :
    NodesOK (fun x => x ∈ stIds nodes) cfg nodes := by
  refine ⟨fun n hn _ => List.mem_map.2 ⟨n, hn, rfl⟩, ?_, ?_, ?_⟩
  · intro hb
    rw [hA.1] at hb
    cases hb
  · intro hb
    rw [hA.2.1] at hb
    cases hb
  · intro hb
    rw [hA.2.2] at hb
    cases hb

theorem buildStrandLinks_endpoints (cfg : Cfg) (env : EnvR) (nodes : List Node)
    (lc fuel k0 : Nat) (L : List Link) (hA : AuxDisabled cfg)
    (h : buildStrandLinks cfg env nodes lc fuel k0 = some L) :
    ∀ l ∈ L, l.source ∈ nodes.map (·.id) ∧ l.target ∈ nodes.map (·.id) := by
  unfold buildStrandLinks at h
  cases hB : buildStrandLinksFull cfg env nodes lc fuel k0 with
  | none => rw [hB] at h; cases h
  | some st =>
    rw [hB] at h
    simp only [Option.map_some'] at h
    cases h
    intro l hl
    have hwf := (buildStrandLinksFull_wf (fun x => x ∈ stIds nodes) cfg env nodes lc fuel k0 st
      (auxDisabled_nodesOK nodes hA) hB).1
    have h2 := hwf.2 l (List.take_subset lc st.links hl)
    exact ⟨h2.2.2.2.1, h2.2.2.2.2⟩

theorem evolveDummyNetwork_links (cfg : Cfg) (env : EnvR) (opts : EvolveOpts) (prev : Network)
    (fuel k0 : Nat) (net : Network) (k1 : Nat)
    (h : evolveDummyNetwork cfg env opts prev fuel k0 = some (net, k1)) :
    ∃ (nodes7 : List Node) (kB : Nat) (stB : BuildState),
      buildStrandLinksFull cfg env nodes7 opts.mutation.linkCount fuel kB = some stB ∧
      net.links = stB.links.take opts.mutation.linkCount ∧
      net.nodes.map (·.id) = nodes7.map (·.id) := by
  simp only [evolveDummyNetwork] at h
  split at h
  · cases h
  · rename_i stB hB
    cases h
    refine ⟨_, _, stB, hB, rfl, ?_⟩
    by_cases hu : opts.mutation.updateNodesOnRelink = true
    · rw [if_pos hu]
      exact updateNodesFromLinks_ids env _ _ _ _
    · rw [if_neg hu]

theorem evolve_noSelf (cfg : Cfg) (env : EnvR) (opts : EvolveOpts) (prev : Network)
    (fuel k0 : Nat) (net : Network) (k1 : Nat)
    (h : evolveDummyNetwork cfg env opts prev fuel k0 = some (net, k1)) :
    ∀ l ∈ net.links, l.source ≠ l.target := by
  obtain ⟨nodes7, kB, stB, hB, hlinks, _⟩ := evolveDummyNetwork_links cfg env opts prev fuel k0 net k1 h
  intro l hl
  rw [hlinks] at hl
  have hwf := (buildStrandLinksFull_wf (fun _ => True) cfg env nodes7 _ fuel kB stB
    (trivialNodesOK cfg nodes7) hB).1
  exact (hwf.2 l (List.take_subset _ stB.links hl)).1

theorem evolve_endpoints (cfg : Cfg) (env : EnvR) (opts : EvolveOpts) (prev : Network)
    (fuel k0 : Nat) (net : Network) (k1 : Nat) (hA : AuxDisabled cfg)
    (h : evolveDummyNetwork cfg env opts prev fuel k0 = some (net, k1)) :
    ∀ l ∈ net.links, l.source ∈ net.nodes.map (·.id) ∧ l.target ∈ net.nodes.map (·.id) := by
  obtain ⟨nodes7, kB, stB, hB, hlinks, hids⟩ := evolveDummyNetwork_links cfg env opts prev fuel k0 net k1 h
  intro l hl
  rw [hlinks] at hl
  rw [hids]
  have hwf := (buildStrandLinksFull_wf (fun x => x ∈ stIds nodes7) cfg env nodes7 _ fuel kB stB
    (auxDisabled_nodesOK nodes7 hA) hB).1
  have h2 := hwf.2 l (List.take_subset _ stB.links hl)
  exact ⟨h2.2.2.2.1, h2.2.2.2.2⟩

theorem any_id_mem {nodes : List Node} {s : String}
    (h : (nodes.any (fun node => node.id == s)) = true) : s ∈ nodes.map (·.id) := by
  obtain ⟨n, hn, he⟩ := List.any_eq_true.1 h
  exact List.mem_map.2 ⟨n, hn, by simpa using he⟩

/-- Every completed tick leaves only links whose endpoints exist in the new
node set, whichever of the four branches produced them (when the aux
families that push parent references are disabled, as shipped). -/
theorem schedTick_valid (cfg : Cfg) (env : EnvR) (p : NetworkParams) (prev : Network)
    (counter fuel k0 : Nat) (r : TickResult) (hA : AuxDisabled cfg)
    (h : schedTick cfg env p prev counter fuel k0 = some r) :
    ∀ l ∈ r.links, l.source ∈ r.nodes.map (·.id) ∧ l.target ∈ r.nodes.map (·.id) := by
  simp only [schedTick] at h
  split at h
  · cases h
  · rename_i net k1 hev
    have hfresh := evolve_endpoints cfg env _ prev fuel k0 net k1 hA hev
    split at h
    all_goals try split at h
    all_goals cases h
    all_goals
      first
      | exact hfresh
      | (intro l hl
         have h2 := List.mem_filter.1 hl
         have h3 := h2.2
         simp only [Bool.and_eq_true] at h3
         exact ⟨any_id_mem h3.1, any_id_mem h3.2⟩)

theorem membership_eq_of (next prev : List Node)
    (hlen : next.length = prev.length)
    (hsub : ∀ n ∈ next, ∃ p ∈ prev, p.id = n.id)
    (hnd1 : (prev.map (·.id)).Nodup) (hnd2 : (next.map (·.id)).Nodup) :
    ∀ x, x ∈ next.map (·.id) ↔ x ∈ prev.map (·.id) := by
  have hss : next.map (·.id) ⊆ prev.map (·.id) := by
    intro x hx
    obtain ⟨n, hn, rfl⟩ := List.mem_map.1 hx
    obtain ⟨pn, hp, he⟩ := hsub n hn
    exact List.mem_map.2 ⟨pn, hp, he⟩
  have h1 : (next.map (·.id)).toFinset ⊆ (prev.map (·.id)).toFinset :=
    fun x hx => List.mem_toFinset.2 (hss (List.mem_toFinset.1 hx))
  have hc1 : (next.map (·.id)).toFinset.card = next.length := by
    rw [List.toFinset_card_of_nodup hnd2, List.length_map]
  have hc2 : (prev.map (·.id)).toFinset.card = prev.length := by
    rw [List.toFinset_card_of_nodup hnd1, List.length_map]
  have heq : (next.map (·.id)).toFinset = (prev.map (·.id)).toFinset := by
    refine Finset.eq_of_subset_of_card_le h1 ?_
    rw [hc1, hc2, hlen]
  intro x
  rw [← List.mem_toFinset, ← List.mem_toFinset, heq]

theorem schedTick_nodes (cfg : Cfg) (env : EnvR) (p : NetworkParams) (prev : Network)
    (counter fuel k0 : Nat) (r : TickResult)
    (h : schedTick cfg env p prev counter fuel k0 = some r) :
    ∃ net k1, evolveDummyNetwork cfg env (evolutionParamsOf p) prev fuel k0 = some (net, k1) ∧
      r.nodes = net.nodes ∧ r.freshLinks = net.links := by
  simp only [schedTick] at h
  split at h
  · cases h
  · rename_i net k1 hev
    refine ⟨net, k1, hev, ?_⟩
    split at h
    all_goals try split at h
    all_goals cases h
    all_goals exact ⟨rfl, rfl⟩

/-- A changed node membership forces the rebuild decision and the freshly
built links, provided ids are duplicate-free on both sides. -/
theorem schedTick_rebuild_on_change (cfg : Cfg) (env : EnvR) (p : NetworkParams) (prev : Network)
    (counter fuel k0 : Nat) (r : TickResult)
    (h : schedTick cfg env p prev counter fuel k0 = some r)
    (hnd1 : (prev.nodes.map (·.id)).Nodup) (hnd2 : (r.nodes.map (·.id)).Nodup)
    (hdiff : ¬ ∀ x, x ∈ r.nodes.map (·.id) ↔ x ∈ prev.nodes.map (·.id)) :
    r.shouldRebuildLinks = true ∧ r.linksRebuilt = true ∧ r.links = r.freshLinks := by
  obtain ⟨net, k1, hev, hrn, hrf⟩ := schedTick_nodes cfg env p prev counter fuel k0 r h
  rw [hrn] at hnd2 hdiff
  have hnc : nodesChangedOf prev net = true := by
    cases hb : nodesChangedOf prev net with
    | true => rfl
    | false =>
      exfalso
      simp only [nodesChangedOf, Bool.or_eq_false_iff, bne_eq_false_iff_eq,
        Bool.not_eq_false'] at hb
      have hsub : ∀ n ∈ net.nodes, ∃ pn ∈ prev.nodes, pn.id = n.id := by
        intro n hn
        have h2 := List.all_eq_true.1 hb.2 n hn
        obtain ⟨pn, hp, he⟩ := List.any_eq_true.1 h2
        exact ⟨pn, hp, by simpa using he⟩
      exact hdiff (membership_eq_of net.nodes prev.nodes hb.1 hsub hnd1 hnd2)
  have hd : rebuildDecision env p counter (nodesChangedOf prev net) k1 = (true, k1) := by
    rw [hnc]
    rfl
  simp only [schedTick, hev, hd] at h
  simp only [Bool.true_eq_false, false_and, if_false, eq_self_iff_true, if_true] at h
  cases h
  exact ⟨rfl, rfl, rfl⟩

/-- On a no-rebuild tick with a non-empty previous link list, the tick
keeps exactly the filtered previous links when at least
`Math.floor(targetLinkCount * 0.6)` survive, and otherwise forces the
freshly built links. -/
theorem schedTick_retention (cfg : Cfg) (env : EnvR) (p : NetworkParams) (prev : Network)
    (counter fuel k0 : Nat) (r : TickResult)
    (h : schedTick cfg env p prev counter fuel k0 = some r)
    (hsr : r.shouldRebuildLinks = false) (hne : prev.links ≠ []) :
    ((Rat.floor ((p.targetLinkCount : ℚ) * 6/10)).toNat ≤ (survivingLinks prev r).length →
      r.links = survivingLinks prev r ∧ r.linksRebuilt = false) ∧
    ((survivingLinks prev r).length < (Rat.floor ((p.targetLinkCount : ℚ) * 6/10)).toNat →
      r.linksRebuilt = true ∧ r.links = r.freshLinks) := by
  have hlen : 0 < prev.links.length := List.length_pos.2 hne
  simp only [schedTick] at h
  split at h
  · cases h
  · rename_i net k1 hev
    split at h
    · split at h
      · rename_i hc1 hc2
        cases h
        constructor
        · intro _
          exact ⟨rfl, rfl⟩
        · intro hlt
          exact absurd hc2 (Nat.not_le.2 hlt)
      · rename_i hc1 hc2
        cases h
        constructor
        · intro hge
          exact absurd hge hc2
        · intro _
          exact ⟨rfl, rfl⟩
    · split at h
      · rename_i hc1 hc3
        cases h
        exact absurd hsr (by simp only [hc3]; exact Bool.true_eq_false ▸ fun hx => by cases hx)
      · rename_i hc1 hc3
        cases h
        exfalso
        exact hc1 ⟨hsr, hlen⟩

/-- After any sequence of completed ticks, every live link's endpoints
exist in the live node set. -/
theorem runTicks_valid (cfg : Cfg) (env : EnvR) (hA : AuxDisabled cfg) :
    ∀ (steps : List (NetworkParams × Nat)) (s0 s1 : Network × Nat × Nat),
      runTicks cfg env steps s0 = some s1 →
      (∀ l ∈ s0.1.links, l.source ∈ s0.1.nodes.map (·.id) ∧ l.target ∈ s0.1.nodes.map (·.id)) →
      ∀ l ∈ s1.1.links, l.source ∈ s1.1.nodes.map (·.id) ∧ l.target ∈ s1.1.nodes.map (·.id)
  | [], s0, s1 => by
    intro h h0
    cases h
    exact h0
  | (p, fuel) :: rest, (net, counter, k), s1 => by
    intro h h0
    simp only [runTicks] at h
    split at h
    · cases h
    · rename_i r hr
      exact runTicks_valid cfg env hA rest _ s1 h
        (fun l hl => schedTick_valid cfg env p net counter fuel k r hA hr l hl)

theorem pipe_append_inj : ∀ (a b c d : List Char),
    '|' ∉ a → '|' ∉ c → a ++ '|' :: b = c ++ '|' :: d → a = c ∧ b = d
  | [], b, [], d, _, _, h => by simpa using h
  | [], b, x :: xs, d, _, hc, h => by
    simp only [List.nil_append, List.cons_append, List.cons.injEq] at h
    exact absurd (h.1 ▸ List.mem_cons_self x xs) (h.1 ▸ hc)
  | x :: xs, b, [], d, ha, _, h => by
    simp only [List.nil_append, List.cons_append, List.cons.injEq] at h
    exact absurd (h.1.symm ▸ List.mem_cons_self x xs) (h.1.symm ▸ ha)
  | x :: xs, b, y :: ys, d, ha, hc, h => by
    simp only [List.cons_append, List.cons.injEq] at h
    obtain ⟨rfl, h2⟩ := h
    have ih := pipe_append_inj xs b ys d (fun hm => ha (List.mem_cons_of_mem x hm))
      (fun hm => hc (List.mem_cons_of_mem x hm)) h2
    exact ⟨by rw [ih.1], ih.2⟩

theorem linkKey_inj {a b c d : String} (ha : pipeFreeP a) (hc : pipeFreeP c)
    (h : linkKey a b = linkKey c d) : a = c ∧ b = d := by
  unfold linkKey at h
  obtain ⟨h1, h2⟩ := pipe_append_inj a.data b.data c.data d.data ha hc h
  cases a
  cases b
  cases c
  cases d
  simp only [String.data] at h1 h2
  exact ⟨by rw [h1], by rw [h2]⟩

theorem pushLink_hasPair (s t : String) (w : ℚ) (a : Bool) (st : BuildState)
    (hwf : Wf pipeFreeP st) (hs : s ≠ "") (ht : t ≠ "") (hst : s ≠ t)
    (hps : pipeFreeP s) : HasPair s t (pushLink s t w a st) := by
  unfold pushLink
  rw [if_neg (by push_neg; exact ⟨hs, ht, hst⟩)]
  by_cases hk : linkKey s t ∈ st.linkKeys
  · rw [if_pos hk]
    rw [hwf.1.1, List.mem_reverse] at hk
    obtain ⟨l, hl, he⟩ := List.mem_map.1 hk
    have hlp := hwf.2 l hl
    obtain ⟨h1, h2⟩ := linkKey_inj hlp.2.2.2.1 hps he
    exact ⟨l, hl, h1, h2⟩
  · rw [if_neg hk]
    exact ⟨⟨s, t, w, a⟩, List.mem_append_right _ (List.mem_singleton.2 rfl), rfl, rfl⟩

theorem spinePass_eq_foldN (env : EnvR) (strand : List String) (st : BuildState) :
    spinePass env strand st = spineFoldN env strand (strand.length - 1) st := rfl

theorem spineFoldN_facts (env : EnvR) (strand : List String)
    (hcl : ∀ x ∈ strand, x ≠ "" ∧ pipeFreeP x) (hnd : strand.Nodup) :
    ∀ (n : Nat), n ≤ strand.length - 1 → ∀ (st : BuildState), Wf pipeFreeP st →
      Wf pipeFreeP (spineFoldN env strand n st) ∧ Grows st (spineFoldN env strand n st) ∧
      ∀ i < n, HasPair (strand.getD i "") (strand.getD (i + 1) "") (spineFoldN env strand n st)
  | 0 => by
    intro _ st hwf
    exact ⟨hwf, grows_refl st, fun i hi => absurd hi (Nat.not_lt_zero i)⟩
  | n + 1 => by
    intro hle st hwf
    have hlen : n + 2 ≤ strand.length := by omega
    obtain ⟨hwf1, hgrow1, hpairs1⟩ :=
      spineFoldN_facts env strand hcl hnd n (by omega) st hwf
    have hfold : spineFoldN env strand (n + 1) st
        = pushD env (strand.getD n "") (strand.getD (n + 1) "") ((6 : ℚ)/10)
            (spineFoldN env strand n st) := by
      unfold spineFoldN
      rw [List.range_succ, List.foldl_append]
      rfl
    have hn1 : n < strand.length := by omega
    have hn2 : n + 1 < strand.length := by omega
    have hm1 : strand.getD n "" ∈ strand := by
      rw [List.getD_eq_getElem strand "" hn1]
      exact List.getElem_mem hn1
    have hm2 : strand.getD (n + 1) "" ∈ strand := by
      rw [List.getD_eq_getElem strand "" hn2]
      exact List.getElem_mem hn2
    have hne : strand.getD n "" ≠ strand.getD (n + 1) "" := by
      rw [List.getD_eq_getElem strand "" hn1, List.getD_eq_getElem strand "" hn2]
      intro he
      have := (List.Nodup.getElem_inj_iff hnd).1 he
      omega
    have hstep : Step pipeFreeP (spineFoldN env strand n st) (spineFoldN env strand (n + 1) st) := by
      rw [hfold]
      exact pushD_step pipeFreeP env _ _ _ _ (fun _ => (hcl _ hm1).2) (fun _ => (hcl _ hm2).2)
    refine ⟨hstep.2 hwf1, grows_trans hgrow1 hstep.1, ?_⟩
    intro i hi
    rcases Nat.lt_succ_iff_lt_or_eq.1 hi with hi2 | rfl
    · exact hasPair_mono hstep.1 (hpairs1 i hi2)
    · rw [hfold]
      have hwfmid : Wf pipeFreeP { spineFoldN env strand i st with
          k := (spineFoldN env strand i st).k + 1 } :=
        (setk_step pipeFreeP _ _).2 hwf1
      exact pushLink_hasPair _ _ _ _ _ hwfmid (hcl _ hm1).1 (hcl _ hm2).1 hne (hcl _ hm1).2

theorem strandPass_facts (env : EnvR) (cfg : Cfg) (strand : List String) (st : BuildState)
    (hcl : ∀ x ∈ strand, x ≠ "" ∧ pipeFreeP x) (hnd : strand.Nodup)
    (hwf : Wf pipeFreeP st) :
    Wf pipeFreeP (strandPass env cfg strand st) ∧ Grows st (strandPass env cfg strand st) ∧
    ∀ i < strand.length - 1,
      HasPair (strand.getD i "") (strand.getD (i + 1) "") (strandPass env cfg strand st) := by
  unfold strandPass
  rw [spinePass_eq_foldN]
  obtain ⟨hwf1, hgrow1, hpairs1⟩ :=
    spineFoldN_facts env strand hcl hnd (strand.length - 1) le_rfl st hwf
  by_cases hg : cfg.grouping.enabled = true ∧ 1 < max 1 cfg.grouping.groupSize
  · rw [if_pos hg]
    have hstep := groupingPass_step pipeFreeP env cfg.grouping strand
      (spineFoldN env strand (strand.length - 1) st) (fun x hx _ => (hcl x hx).2)
    exact ⟨hstep.2 hwf1, grows_trans hgrow1 hstep.1,
      fun i hi => hasPair_mono hstep.1 (hpairs1 i hi)⟩
  · rw [if_neg hg]
    exact ⟨hwf1, hgrow1, hpairs1⟩

theorem strandsFold_facts (env : EnvR) (cfg : Cfg) :
    ∀ (strands : List (List String)) (st : BuildState),
      (∀ sub ∈ strands, (∀ x ∈ sub, x ≠ "" ∧ pipeFreeP x) ∧ sub.Nodup) →
      Wf pipeFreeP st →
      Wf pipeFreeP (strands.foldl (fun st strand => strandPass env cfg strand st) st) ∧
      Grows st (strands.foldl (fun st strand => strandPass env cfg strand st) st) ∧
      ∀ sub ∈ strands, ∀ i < sub.length - 1,
        HasPair (sub.getD i "") (sub.getD (i + 1) "")
          (strands.foldl (fun st strand => strandPass env cfg strand st) st)
  | [], st => by
    intro _ hwf
    exact ⟨hwf, grows_refl st, fun sub hsub => absurd hsub (List.not_mem_nil sub)⟩
  | sub :: rest, st => by
    intro hall hwf
    simp only [List.foldl_cons]
    obtain ⟨hwf1, hgrow1, hpairs1⟩ :=
      strandPass_facts env cfg sub st (hall sub (List.mem_cons_self sub rest)).1
        (hall sub (List.mem_cons_self sub rest)).2 hwf
    obtain ⟨hwf2, hgrow2, hpairs2⟩ :=
      strandsFold_facts env cfg rest (strandPass env cfg sub st)
        (fun s hs => hall s (List.mem_cons_of_mem sub hs)) hwf1
    refine ⟨hwf2, grows_trans hgrow1 hgrow2, ?_⟩
    intro s hs i hi
    rcases List.mem_cons.1 hs with rfl | hs2
    · exact hasPair_mono hgrow2 (hpairs1 i hi)
    · exact hpairs2 s hs2 i hi

/-- A completed `buildStrandLinksFull` run is well formed over pipe-free
endpoints and contains every consecutive spine pair of every strand. -/
theorem buildStrandLinksFull_spine (cfg : Cfg) (env : EnvR) (nodes : List Node)
    (linkCount fuel k0 : Nat) (st : BuildState)
    (hN : NodesOK pipeFreeP cfg nodes)
    (hcl : ∀ sub ∈ strandsOf cfg nodes, ∀ x ∈ sub, x ≠ "" ∧ pipeFreeP x)
    (hnd : ∀ sub ∈ strandsOf cfg nodes, sub.Nodup)
    (h : buildStrandLinksFull cfg env nodes linkCount fuel k0 = some st) :
    Wf pipeFreeP st ∧
    ∀ sub ∈ strandsOf cfg nodes, ∀ i < sub.length - 1,
      HasPair (sub.getD i "") (sub.getD (i + 1) "") st := by
  unfold buildStrandLinksFull at h
  split at h
  · cases h
  · rename_i st8 hpad
    cases h
    have hids := nodesOK_ids hN
    have hstr := nodesOK_strands hN
    obtain ⟨hwf1, _, hpairs1⟩ := strandsFold_facts env cfg (strandsOf cfg nodes)
      ⟨k0, [], [], []⟩ (fun sub hsub => ⟨hcl sub hsub, hnd sub hsub⟩) (wf_init pipeFreeP k0)
    have hrest : Step pipeFreeP
        ((strandsOf cfg nodes).foldl (fun st strand => strandPass env cfg strand st)
          ⟨k0, [], [], []⟩) (buildPost cfg env nodes st8) := by
      refine step_trans ?_ (step_trans (padLoop_step pipeFreeP env (stIds nodes) linkCount
        hids fuel _ _ hpad) (buildPost_step pipeFreeP cfg env nodes st8 hN))
      unfold buildPre
      refine step_trans (ite_step pipeFreeP (cfg.crossStrand.enabled = true)
        (crossPass env cfg.crossStrand (strandCountOf cfg) (strandsOf cfg nodes)
          (maxLenOf (strandsOf cfg nodes))) _
        (crossPass_step pipeFreeP env cfg.crossStrand (strandCountOf cfg) (strandsOf cfg nodes)
          (maxLenOf (strandsOf cfg nodes)) _ hstr)) ?_
      refine step_trans (ite_step pipeFreeP (cfg.spiderWeb.enabled = true)
        (spiderPass env cfg.spiderWeb (strandCountOf cfg) (strandsOf cfg nodes)
          (maxLenOf (strandsOf cfg nodes))) _
        (spiderPass_step pipeFreeP env cfg.spiderWeb (strandCountOf cfg) (strandsOf cfg nodes)
          (maxLenOf (strandsOf cfg nodes)) _ hstr)) ?_
      refine step_trans (ite_step_of pipeFreeP (cfg.bridgeNodes.enabled = true)
        (bridgeLinkPass env cfg.bridgeNodes nodes) _ (fun hb =>
          bridgeLinkPass_step pipeFreeP env _ nodes _
            (fun n hn => ⟨hN.1 n hn, fun hlay q hq => hN.2.1 hb n hn hlay q hq⟩))) ?_
      refine step_trans (ite_step_of pipeFreeP (cfg.subStrands.enabled = true)
        (subLinkPass env cfg.subStrands nodes) _ (fun hb =>
          subLinkPass_step pipeFreeP env _ nodes _
            (fun n hn => ⟨hN.1 n hn, fun hlay q hq => hN.2.2.1 hb n hn hlay q hq⟩))) ?_
      refine step_trans (ite_step_of pipeFreeP (cfg.ends.enabled = true)
        (endsLinkPass env nodes) _ (fun hb =>
          endsLinkPass_step pipeFreeP env nodes _
            (fun n hn => ⟨hN.1 n hn, fun hlay q hq => hN.2.2.2 hb n hn hlay q hq⟩))) ?_
      exact ite_step pipeFreeP (cfg.extraRandomLinks.enabled = true ∧ 1 < (stIds nodes).length)
        (extraPass env cfg (stIds nodes)) _ (extraPass_step pipeFreeP env cfg (stIds nodes) _ hids)
    exact ⟨hrest.2 hwf1, fun sub hsub i hi => hasPair_mono hrest.1 (hpairs1 sub hsub i hi)⟩

theorem countP_eq_le_one {α : Type} [DecidableEq α] (L : List α) (hnd : L.Nodup) (K : α) :
    L.countP (fun x => decide (x = K)) ≤ 1 := by
  induction L with
  | nil => simp
  | cons x xs ih =>
    simp only [List.countP_cons]
    by_cases he : x = K
    · subst he
      have hzero : xs.countP (fun y => decide (y = x)) = 0 := by
        rw [List.countP_eq_zero]
        intro y hy
        simp only [decide_eq_true_eq]
        intro he2
        exact (List.nodup_cons.1 hnd).1 (he2 ▸ hy)
      simp [hzero]
    · rw [decide_eq_false he]
      simpa using ih (List.nodup_cons.1 hnd).2

theorem pair_count_one (st : BuildState) (hwf : Wf pipeFreeP st) (p : String × String)
    (hp1 : pipeFreeP p.1) (hps : HasPair p.1 p.2 st) :
    st.links.countP (fun l => decide ((l.source, l.target) = p)) = 1 := by
  obtain ⟨l0, hl0, he1, he2⟩ := hps
  have hpos : 0 < st.links.countP (fun l => decide ((l.source, l.target) = p)) := by
    rw [List.countP_pos_iff]
    exact ⟨l0, hl0, by simp [he1, he2]⟩
  have hkeynd : (st.links.map (fun l => linkKey l.source l.target)).Nodup := by
    have h2 := hwf.1.2
    rw [hwf.1.1] at h2
    exact List.nodup_reverse.1 h2
  have hcong : ∀ l ∈ st.links, (decide ((l.source, l.target) = p))
      = (decide (linkKey l.source l.target = linkKey p.1 p.2)) := by
    intro l hl
    rw [decide_eq_decide]
    constructor
    · intro he
      rw [show l.source = p.1 by rw [← he], show l.target = p.2 by rw [← he]]
    · intro he
      obtain ⟨h1, h2⟩ := linkKey_inj (hwf.2 l hl).2.2.2.1 hp1 he
      rw [h1, h2]
  have hle : st.links.countP (fun l => decide ((l.source, l.target) = p)) ≤ 1 := by
    rw [List.countP_congr (fun x hx => by rw [hcong x hx])]
    have hmap : st.links.countP (fun l => decide (linkKey l.source l.target = linkKey p.1 p.2))
        = (st.links.map (fun l => linkKey l.source l.target)).countP
            (fun x => decide (x = linkKey p.1 p.2)) := by
      rw [List.countP_map]
      rfl
    rw [hmap]
    exact countP_eq_le_one _ hkeynd _
  omega

theorem countP_or_disjoint {α : Type} (p q : α → Bool) (l : List α)
    (h : ∀ a ∈ l, ¬(p a = true ∧ q a = true)) :
    l.countP (fun a => p a || q a) = l.countP p + l.countP q := by
  induction l with
  | nil => simp
  | cons x xs ih =>
    simp only [List.countP_cons]
    rw [ih (fun a ha => h a (List.mem_cons_of_mem x ha))]
    cases hpv : p x <;> cases hqv : q x
    · simp only [hpv, hqv, Bool.false_or, Bool.false_eq_true, if_false]
      omega
    · simp only [hpv, hqv, Bool.false_or, Bool.false_eq_true, if_false,
        eq_self_iff_true, if_true]
      omega
    · simp only [hpv, hqv, Bool.true_or, Bool.false_eq_true, if_false,
        eq_self_iff_true, if_true]
      omega
    · exact absurd ⟨hpv, hqv⟩ (h x (List.mem_cons_self x xs))

theorem countP_pairMem (links : List Link) :
    ∀ (ps : List (String × String)), ps.Nodup →
      (∀ p ∈ ps, links.countP (fun l => decide ((l.source, l.target) = p)) = 1) →
      links.countP (fun l => decide ((l.source, l.target) ∈ ps)) = ps.length := by
  intro ps
  induction ps with
  | nil => intro _ _; simp
  | cons p ps ih =>
    intro hnd hone
    have hcong : ∀ l ∈ links, (decide ((l.source, l.target) ∈ p :: ps))
        = ((fun l => decide ((l.source, l.target) = p)) l ||
           (fun l => decide ((l.source, l.target) ∈ ps)) l) := by
      intro l _
      simp [List.mem_cons]
    rw [List.countP_congr (fun x hx => by rw [hcong x hx])]
    rw [countP_or_disjoint _ _ _ ?_]
    · rw [hone p (List.mem_cons_self p ps),
        ih (List.nodup_cons.1 hnd).2 (fun q hq => hone q (List.mem_cons_of_mem p hq))]
      simp [Nat.add_comm]
    · intro l hl hboth
      simp only [decide_eq_true_eq] at hboth
      exact (List.nodup_cons.1 hnd).1 (hboth.1 ▸ hboth.2)

theorem spinePairs_nodup (strand : List String) (hnd : strand.Nodup) :
    (spinePairs strand).Nodup := by
  unfold spinePairs
  refine List.Nodup.map_on ?_ (List.nodup_range _)
  intro i hi j hj he
  rw [List.mem_range] at hi hj
  have hi1 : i < strand.length := by omega
  have hj1 : j < strand.length := by omega
  have h1 : strand.getD i "" = strand.getD j "" := congrArg Prod.fst he
  rw [List.getD_eq_getElem strand "" hi1, List.getD_eq_getElem strand "" hj1] at h1
  exact (List.Nodup.getElem_inj_iff hnd).1 h1

theorem spinePairs_length (strand : List String) :
    (spinePairs strand).length = strand.length - 1 := by
  unfold spinePairs
  rw [List.length_map, List.length_range]

theorem strandsOf_sub_sublist {cfg : Cfg} {nodes : List Node} {sub : List String}
    (hsub : sub ∈ strandsOf cfg nodes) : sub.Sublist (nodes.map (·.id)) := by
  unfold strandsOf roundRobin at hsub
  obtain ⟨s, _, rfl⟩ := List.mem_map.1 hsub
  have h1 : ((((baseNodesOf nodes).map (·.id)).enum.filter
      (fun p => p.1 % strandCountOf cfg == s)).map Prod.snd).Sublist
      (((baseNodesOf nodes).map (·.id)).enum.map Prod.snd) :=
    (List.filter_sublist _).map Prod.snd
  rw [List.enum_map_snd] at h1
  refine h1.trans ?_
  unfold baseNodesOf
  exact (List.filter_sublist nodes).map (·.id)

theorem strandsOf_nodup {cfg : Cfg} {nodes : List Node}
    (hnd : (nodes.map (·.id)).Nodup) :
    ∀ sub ∈ strandsOf cfg nodes, sub.Nodup :=
  fun sub hsub => hnd.sublist (strandsOf_sub_sublist hsub)

theorem strandsOf_clean {cfg : Cfg} {nodes : List Node}
    (hcl : ∀ n ∈ nodes, n.id ≠ "" ∧ pipeFreeP n.id) :
    ∀ sub ∈ strandsOf cfg nodes, ∀ x ∈ sub, x ≠ "" ∧ pipeFreeP x := by
  intro sub hsub x hx
  have h1 : x ∈ nodes.map (·.id) := (strandsOf_sub_sublist hsub).subset hx
  obtain ⟨n, hn, rfl⟩ := List.mem_map.1 h1
  exact hcl n hn

/-- Exactly `length - 1` spine links per strand in the pre-truncation link
list of a completed run. -/
theorem buildStrandLinksFull_spine_count (cfg : Cfg) (env : EnvR) (nodes : List Node)
    (linkCount fuel k0 : Nat) (st : BuildState)
    (hN : NodesOK pipeFreeP cfg nodes)
    (hcl : ∀ n ∈ nodes, n.id ≠ "" ∧ pipeFreeP n.id)
    (hnd : (nodes.map (·.id)).Nodup)
    (h : buildStrandLinksFull cfg env nodes linkCount fuel k0 = some st) :
    ∀ sub ∈ strandsOf cfg nodes,
      st.links.countP (fun l => decide ((l.source, l.target) ∈ spinePairs sub))
        = sub.length - 1 := by
  obtain ⟨hwf, hpairs⟩ := buildStrandLinksFull_spine cfg env nodes linkCount fuel k0 st hN
    (strandsOf_clean hcl) (strandsOf_nodup hnd) h
  intro sub hsub
  have hsubnd := strandsOf_nodup hnd sub hsub
  have hsubcl := strandsOf_clean hcl sub hsub
  rw [← spinePairs_length sub]
  refine countP_pairMem st.links (spinePairs sub) (spinePairs_nodup sub hsubnd) ?_
  intro p hp
  obtain ⟨i, hi, rfl⟩ := List.mem_map.1 hp
  rw [List.mem_range] at hi
  have hi1 : i < sub.length := by omega
  have hm1 : sub.getD i "" ∈ sub := by
    rw [List.getD_eq_getElem sub "" hi1]
    exact List.getElem_mem hi1
  exact pair_count_one st hwf _ (hsubcl _ hm1).2 (hpairs sub hsub i hi)

-- Concrete fixtures used by the witnesses and counterexamples below: the
-- feature blocks carry the shipped VISUAL_DEFAULTS numbers with the toggles
-- set per scenario, the streams are explicit rational Math.random oracles,
-- and the node sets are small.

/-- Once enough distinct targets are recorded, the connectivity top-up loop
stops regardless of the remaining attempt budget. -/
theorem connLoop_done (env : EnvR) (cc : ConnectivityCfg) (ids : List String) (source : String)
    (needed : Nat) (used : List String) (h : needed ≤ used.length) :
    ∀ a st, connLoop env cc ids source needed a used st = st
  | 0, st => rfl
  | a + 1, st => by
    unfold connLoop
    rw [if_neg (Nat.not_lt.2 h)]

/-- With at most one node id, the padding loop exits at once, whatever the
fuel and the link deficit. -/
theorem padLoop_exit (env : EnvR) (ids : List String) (lc : Nat) (hids : ¬ 1 < ids.length) :
    ∀ fuel st, padLoop env ids lc fuel st = some st
  | 0, st => by
    unfold padLoop
    rw [if_neg (fun hc => hids hc.2)]
  | fuel + 1, st => by
    unfold padLoop
    rw [if_neg (fun hc => hids hc.2)]

/-- A `pushLink` call with default `active` whose key is already seen (or
whose endpoints are rejected) only advances the random cursor. -/
theorem pushD_seen (env : EnvR) (s t : String) (w : ℚ) (st : BuildState)
    (h : linkKey s t ∈ st.linkKeys) :
    pushD env s t w st = ⟨st.k + 1, st.linkKeys, st.links, st.degree⟩ := by
  obtain ⟨k, keys, links, deg⟩ := st
  simp only [pushD, randQ, pushLink]
  by_cases h1 : s = "" ∨ t = "" ∨ s = t
  · rw [if_pos h1]
  · rw [if_neg h1, if_pos h]

/-- Every draw of the constant oracle is 1/2. -/
theorem envH_stream (x : Nat) : envH.stream x = 1/2 := rfl

/-- The divergence of the padding loop on the constant-1/2 stream: from any
state that already saw the key (n-1, n-0) and holds one link, every
iteration redraws that same pair, `pushLink` rejects it, and the loop
consumes all fuel with the guard still true. -/
theorem c3_spins : ∀ (fuel : Nat) (st : BuildState),
    linkKey "n-1" "n-0" ∈ st.linkKeys → st.links.length = 1 →
    padLoop envH ["n-0", "n-1"] 3 fuel st = none
  | 0, st, _, hlen => by
    unfold padLoop
    rw [if_pos (⟨by omega, by decide⟩ :
      st.links.length < 3 ∧ 1 < (["n-0", "n-1"] : List String).length)]
  | fuel + 1, st, hkey, hlen => by
    unfold padLoop
    rw [if_pos (⟨by omega, by decide⟩ :
      st.links.length < 3 ∧ 1 < (["n-0", "n-1"] : List String).length)]
    simp only [randQ, envH_stream]
    rw [pushD_seen]
    · exact c3_spins fuel _ hkey hlen
    · exact hkey

/-- C3: refuted — link generation does not terminate for every node set and
target link count.  With two nodes, every optional feature disabled and a
`Math.random` stream that keeps returning 1/2 (a legal value), the padding
loop pushes one link on its first iteration and then redraws the same
already-seen pair forever: the seen-key set makes `pushLink` a no-op, the
link count stays below the target, and the `while` guard never goes false.
In the fuelled embedding the whole of `buildStrandLinks` returns `none` for
every fuel bound, which is exactly non-termination of the source loop. -/
theorem claim_C3 : ∀ fuel, buildStrandLinks cfg3 envH [hNode 0, hNode 1] 3 fuel 0 = none := by
  intro fuel
  have hpad : padLoop envH (stIds [hNode 0, hNode 1]) 3 fuel
      (buildPre cfg3 envH [hNode 0, hNode 1] 0) = none := by
    cases fuel with
    | zero => rfl
    | succ n =>
      have h1 : padLoop envH (stIds [hNode 0, hNode 1]) 3 (n + 1)
            (buildPre cfg3 envH [hNode 0, hNode 1] 0)
          = padLoop envH ["n-0", "n-1"] 3 n (stPad 4) := rfl
      rw [h1]
      exact c3_spins n (stPad 4) (by decide) rfl
  unfold buildStrandLinks buildStrandLinksFull
  rw [hpad]
  rfl

/-- A `pushLink` whose key is already seen (or whose endpoints are
rejected) is a no-op. -/
theorem pushLink_seen (s t : String) (w : ℚ) (a : Bool) (st : BuildState)
    (h : linkKey s t ∈ st.linkKeys) : pushLink s t w a st = st := by
  unfold pushLink
  by_cases h1 : s = "" ∨ t = "" ∨ s = t
  · rw [if_pos h1]
  · rw [if_neg h1, if_pos h]

/-- One iteration of the connectivity top-up loop in which the drawn
target is fresh for `usedTargets` but the pushed key is already seen: the
attempt is consumed, the target is recorded, and the links do not change. -/
theorem connLoop_step_seen (env : EnvR) (cc : ConnectivityCfg) (ids : List String)
    (source : String) (needed a : Nat) (used : List String) (st : BuildState)
    (target : String) (hlt : used.length < needed)
    (htar : idAtQ ids (env.stream st.k * (ids.length : ℚ)) = target)
    (hts : ¬ target = source)
    (hnu : ¬ (cc.uniqueTargets = true ∧ target ∈ used))
    (hseen : linkKey source target ∈ st.linkKeys) :
    connLoop env cc ids source needed (a + 1) used st
      = connLoop env cc ids source needed a (if target ∈ used then used else used ++ [target])
          ⟨st.k + 3, st.linkKeys, st.links, st.degree⟩ := by
  conv_lhs => rw [connLoop]
  rw [if_pos hlt]
  simp only [randQ]
  rw [htar]
  rw [if_neg hts, if_neg hnu]
  rw [pushLink_seen source target]
  exact hseen

/-- The passes before the padding loop never read `ensureConnectivity`. -/
theorem buildPre_conn (cfg : Cfg) (cc : ConnectivityCfg) (env : EnvR) (nodes : List Node)
    (k0 : Nat) :
    buildPre { cfg with ensureConnectivity := cc } env nodes k0 = buildPre cfg env nodes k0 := rfl

/-- C6: refuted for every attempt budget — the connectivity pass counts a
drawn target as satisfied even when `pushLink` rejected it as a duplicate
of an existing link, so a node can end the pass below `minLinksPerNode` no
matter how large `maxAttempts` is.  Concretely: on three nodes in one
strand, n-0 has degree 1 after the spine and padding; the top-up loop for
n-0 draws n-1, the push is a seen-key no-op, yet n-1 is recorded in
`usedTargets`, the loop believes the deficit is met and stops with n-0
still at degree 1 < 2, for every `maxAttempts ≥ 1`. -/
theorem claim_C6 (M : Nat) (hM : 1 ≤ M) :
    buildStrandLinks (cfg6 M) env6 [hNode 0, hNode 1, hNode 2] 3 10 0 = some c6links ∧
    (cfg6 M).ensureConnectivity.enabled = true ∧
    (cfg6 M).ensureConnectivity.minLinksPerNode = 2 ∧
    degreeIn c6links "n-0" = 1 := by
  obtain ⟨a, rfl⟩ : ∃ a, M = a + 1 := ⟨M - 1, by omega⟩
  refine ⟨?_, rfl, rfl, rfl⟩
  have hfull : buildStrandLinksFull (cfg6 (a + 1)) env6 [hNode 0, hNode 1, hNode 2] 3 10 0
      = some (buildPost (cfg6 (a + 1)) env6 [hNode 0, hNode 1, hNode 2] (stC6 6)) := by
    unfold buildStrandLinksFull
    rw [show buildPre (cfg6 (a + 1)) env6 [hNode 0, hNode 1, hNode 2] 0
        = buildPre (cfg6 1) env6 [hNode 0, hNode 1, hNode 2] 0 from
      buildPre_conn (cfg6 1) (c6cc (a + 1)) env6 [hNode 0, hNode 1, hNode 2] 0]
    rw [show padLoop env6 (stIds [hNode 0, hNode 1, hNode 2]) 3 10
        (buildPre (cfg6 1) env6 [hNode 0, hNode 1, hNode 2] 0) = some (stC6 6) from rfl]
  have hpost : buildPost (cfg6 (a + 1)) env6 [hNode 0, hNode 1, hNode 2] (stC6 6)
      = connPass env6 (c6cc (a + 1)) ["n-0", "n-1", "n-2"] (stC6 6) := by
    unfold buildPost
    rw [if_pos (⟨rfl, by decide⟩ :
      (cfg6 (a + 1)).ensureConnectivity.enabled = true ∧
        1 < (stIds [hNode 0, hNode 1, hNode 2]).length)]
    have hpe : (cfg6 (a + 1)).proximityLinks.enabled = false := rfl
    rw [if_neg (fun hc => by rw [hpe] at hc; exact absurd hc.1 (by decide))]
    rw [show stIds [hNode 0, hNode 1, hNode 2] = ["n-0", "n-1", "n-2"] from rfl]
    rw [show (cfg6 (a + 1)).ensureConnectivity = c6cc (a + 1) from rfl]
  have hconn : connPass env6 (c6cc (a + 1)) ["n-0", "n-1", "n-2"] (stC6 6) = stC6 9 := by
    unfold connPass
    rw [List.foldl_cons]
    have hmin : max 1 (c6cc (a + 1)).minLinksPerNode = 2 := rfl
    have hma : max 1 (if (c6cc (a + 1)).maxAttempts = 0 then 6
        else (c6cc (a + 1)).maxAttempts) = a + 1 := by
      rw [show (c6cc (a + 1)).maxAttempts = a + 1 from rfl]
      rw [if_neg (Nat.succ_ne_zero a)]
      exact max_eq_right (by omega)
    simp only [hmin, hma]
    rw [show degGet (stC6 6).degree "n-0" = 1 from rfl]
    rw [if_neg (by decide : ¬ (2 : Nat) ≤ 1)]
    rw [connLoop_step_seen env6 (c6cc (a + 1)) ["n-0", "n-1", "n-2"] "n-0" (2 - 1) a []
      (stC6 6) "n-1" (by decide) rfl (by decide)
      (fun hc => List.not_mem_nil "n-1" hc.2) (by decide)]
    rw [show (if ("n-1" : String) ∈ ([] : List String) then ([] : List String)
        else [] ++ ["n-1"]) = ["n-1"] from rfl]
    rw [show (⟨(stC6 6).k + 3, (stC6 6).linkKeys, (stC6 6).links, (stC6 6).degree⟩ : BuildState)
        = stC6 9 from rfl]
    rw [connLoop_done env6 (c6cc (a + 1)) ["n-0", "n-1", "n-2"] "n-0" (2 - 1) ["n-1"]
      (by decide) a (stC6 9)]
    simp only [List.foldl_cons, List.foldl_nil]
    rw [show degGet (stC6 9).degree "n-1" = 3 from rfl]
    rw [if_pos (by decide : (2 : Nat) ≤ 3)]
    rw [show degGet (stC6 9).degree "n-2" = 2 from rfl]
    rw [if_pos (by decide : (2 : Nat) ≤ 2)]
  unfold buildStrandLinks
  rw [hfull]
  simp only [Option.map_some']
  rw [hpost, hconn]
  rfl

/-- Witness instantiating the C6 theorem at attempt budget 10. -/
theorem claim_C6_witness :
    1 ≤ 10 ∧
    (buildStrandLinks (cfg6 10) env6 [hNode 0, hNode 1, hNode 2] 3 10 0 = some c6links ∧
     (cfg6 10).ensureConnectivity.enabled = true ∧
     (cfg6 10).ensureConnectivity.minLinksPerNode = 2 ∧
     degreeIn c6links "n-0" = 1) :=
  ⟨by decide, claim_C6 10 (by decide)⟩

/-- C1: confirmed — when the node membership after a tick differs from the
membership before it (node ids duplicate-free on both sides), the
`nodesChanged` test is true, the rebuild decision is forced true, and the
tick emits the freshly rebuilt links rather than retaining the previous
ones. -/
theorem claim_C1 (cfg : Cfg) (env : EnvR) (p : NetworkParams) (prev : Network)
    (counter fuel k0 : Nat) (r : TickResult)
    (h : schedTick cfg env p prev counter fuel k0 = some r)
    (hnd1 : (prev.nodes.map (·.id)).Nodup) (hnd2 : (r.nodes.map (·.id)).Nodup)
    (hdiff : ¬ ∀ x, x ∈ r.nodes.map (·.id) ↔ x ∈ prev.nodes.map (·.id)) :
    r.shouldRebuildLinks = true ∧ r.linksRebuilt = true ∧ r.links = r.freshLinks :=
  schedTick_rebuild_on_change cfg env p prev counter fuel k0 r h hnd1 hnd2 hdiff

/-- Witness for C1: growth probability 1 adds node n-1 to the 1-node
network, and the tick rebuilds. -/
theorem claim_C1_witness :
    schedTick cfg2 envH params1 prev1 0 20 0 = some c1res ∧
    (prev1.nodes.map (·.id)).Nodup ∧ (c1res.nodes.map (·.id)).Nodup ∧
    (¬ ∀ x, x ∈ c1res.nodes.map (·.id) ↔ x ∈ prev1.nodes.map (·.id)) ∧
    (c1res.shouldRebuildLinks = true ∧ c1res.linksRebuilt = true ∧
     c1res.links = c1res.freshLinks) :=
  ⟨rfl, by decide, by decide,
   fun hall => absurd ((hall "n-1").1 (by decide)) (by decide),
   claim_C1 cfg2 envH params1 prev1 0 20 0 c1res rfl (by decide) (by decide)
     (fun hall => absurd ((hall "n-1").1 (by decide)) (by decide))⟩

/-- C2: corrected — the seen-pair set keys ORDERED pairs (the template
string source|target), so the reversed pair passes the dedup check; the
cross-strand pass pushes both directions of the same unordered pair by
design.  The amended property proven here: in every completed
`buildStrandLinks` run, no ordered (source, target) pair appears twice. -/
theorem claim_C2 (cfg : Cfg) (env : EnvR) (nodes : List Node) (lc fuel k0 : Nat) (L : List Link)
    (h : buildStrandLinks cfg env nodes lc fuel k0 = some L) :
    L.Pairwise (fun l1 l2 => ¬ (l1.source = l2.source ∧ l1.target = l2.target)) := by
  unfold buildStrandLinks at h
  cases hB : buildStrandLinksFull cfg env nodes lc fuel k0 with
  | none => rw [hB] at h; cases h
  | some st =>
    rw [hB] at h
    simp only [Option.map_some'] at h
    cases h
    have hwf := (buildStrandLinksFull_wf (fun _ => True) cfg env nodes lc fuel k0 st
      (trivialNodesOK cfg nodes) hB).1
    have hnd : (st.links.map (fun l => linkKey l.source l.target)).Nodup := by
      have h2 := hwf.1.2
      rw [hwf.1.1] at h2
      exact List.nodup_reverse.1 h2
    have hpw : st.links.Pairwise
        (fun l1 l2 => linkKey l1.source l1.target ≠ linkKey l2.source l2.target) :=
      (List.pairwise_map).1 hnd
    have hpw2 := hpw.sublist (List.take_sublist lc st.links)
    exact hpw2.imp (fun hne hc => hne (by rw [hc.1, hc.2]))

/-- Counterexample for C2: with cross-strand linking enabled on two nodes
the returned set holds the same unordered pair in both directions. -/
theorem claim_C2_counterexample :
    buildStrandLinks cfg2 envH [hNode 0, hNode 1] 2 10 0 = some c2links ∧
    (c2links.getD 0 ⟨"", "", 0, false⟩).source = (c2links.getD 1 ⟨"", "", 0, false⟩).target ∧
    (c2links.getD 0 ⟨"", "", 0, false⟩).target = (c2links.getD 1 ⟨"", "", 0, false⟩).source :=
  ⟨rfl, rfl, rfl⟩

/-- Witness for C2 on the cross-strand fixture. -/
theorem claim_C2_witness :
    buildStrandLinks cfg2 envH [hNode 0, hNode 1] 2 10 0 = some c2links ∧
    c2links.Pairwise (fun l1 l2 => ¬ (l1.source = l2.source ∧ l1.target = l2.target)) :=
  ⟨rfl, claim_C2 cfg2 envH [hNode 0, hNode 1] 2 10 0 c2links rfl⟩

/-- C4: corrected — the spine loop gives every strand of length n exactly
n-1 consecutive links in the ACCUMULATED link set (proven below for
pipe-free duplicate-free ids), but the final `links.slice(0, linkCount)`
can drop spine links, so the property fails for the returned set when the
target count truncates. -/
theorem claim_C4 (cfg : Cfg) (env : EnvR) (nodes : List Node)
    (linkCount fuel k0 : Nat) (st : BuildState)
    (hN : NodesOK pipeFreeP cfg nodes)
    (hcl : ∀ n ∈ nodes, n.id ≠ "" ∧ pipeFreeP n.id)
    (hnd : (nodes.map (·.id)).Nodup)
    (h : buildStrandLinksFull cfg env nodes linkCount fuel k0 = some st) :
    ∀ sub ∈ strandsOf cfg nodes,
      st.links.countP (fun l => decide ((l.source, l.target) ∈ spinePairs sub))
        = sub.length - 1 :=
  buildStrandLinksFull_spine_count cfg env nodes linkCount fuel k0 st hN hcl hnd h

/-- Counterexample for C4: four nodes in two strands with linkCount 1 —
the returned set keeps no spine link of the second strand (length 2, so
the claim demands exactly 1 there). -/
theorem claim_C4_counterexample :
    buildStrandLinks cfg3 envH [hNode 0, hNode 1, hNode 2, hNode 3] 1 10 0
      = some [⟨"n-0", "n-2", 3/5, true⟩] ∧
    strandsOf cfg3 [hNode 0, hNode 1, hNode 2, hNode 3] = [["n-0", "n-2"], ["n-1", "n-3"]] ∧
    ([⟨"n-0", "n-2", 3/5, true⟩] : List Link).countP
      (fun l => decide ((l.source, l.target) ∈ spinePairs ["n-1", "n-3"])) = 0 ∧
    (["n-1", "n-3"] : List String).length - 1 = 1 :=
  ⟨rfl, rfl, rfl, rfl⟩

/-- Witness for C4 on the four-node fixture, against the full
pre-truncation state. -/
theorem claim_C4_witness :
    NodesOK pipeFreeP cfg3 [hNode 0, hNode 1, hNode 2, hNode 3] ∧
    (∀ n ∈ [hNode 0, hNode 1, hNode 2, hNode 3], n.id ≠ "" ∧ pipeFreeP n.id) ∧
    (([hNode 0, hNode 1, hNode 2, hNode 3].map (·.id)).Nodup) ∧
    buildStrandLinksFull cfg3 envH [hNode 0, hNode 1, hNode 2, hNode 3] 1 10 0 = some st4X ∧
    (∀ sub ∈ strandsOf cfg3 [hNode 0, hNode 1, hNode 2, hNode 3],
      st4X.links.countP (fun l => decide ((l.source, l.target) ∈ spinePairs sub))
        = sub.length - 1) := by
  have hN : NodesOK pipeFreeP cfg3 [hNode 0, hNode 1, hNode 2, hNode 3] :=
    ⟨by decide, fun hb => absurd hb (by decide), fun hb => absurd hb (by decide),
     fun hb => absurd hb (by decide)⟩
  exact ⟨hN, by decide, by decide, rfl,
    claim_C4 cfg3 envH [hNode 0, hNode 1, hNode 2, hNode 3] 1 10 0 st4X hN
      (by decide) (by decide) rfl⟩

/-- C5: confirmed — after any completed sequence of scheduler ticks from a
state whose links all reference live nodes, every link of the final state
references nodes of the final node set, whichever branch (retention with
the endpoint filter, forced rebuild, or fresh fall-through) each tick
took.  The aux families that push parent references are disabled, as in
the shipped configuration. -/
theorem claim_C5 (cfg : Cfg) (env : EnvR) (hA : AuxDisabled cfg)
    (steps : List (NetworkParams × Nat)) (s0 s1 : Network × Nat × Nat)
    (h : runTicks cfg env steps s0 = some s1)
    (h0 : ∀ l ∈ s0.1.links,
      l.source ∈ s0.1.nodes.map (·.id) ∧ l.target ∈ s0.1.nodes.map (·.id)) :
    ∀ l ∈ s1.1.links,
      l.source ∈ s1.1.nodes.map (·.id) ∧ l.target ∈ s1.1.nodes.map (·.id) :=
  runTicks_valid cfg env hA steps s0 s1 h h0

/-- Witness for C5: one retention tick over a four-node network. -/
theorem claim_C5_witness :
    AuxDisabled cfg2 ∧
    runTicks cfg2 envH [(params7, 20)] ((prev5, 0, 0) : Network × Nat × Nat) = some c5res ∧
    (∀ l ∈ prev5.links,
      l.source ∈ prev5.nodes.map (·.id) ∧ l.target ∈ prev5.nodes.map (·.id)) ∧
    (∀ l ∈ c5res.1.links,
      l.source ∈ c5res.1.nodes.map (·.id) ∧ l.target ∈ c5res.1.nodes.map (·.id)) :=
  ⟨⟨rfl, rfl, rfl⟩, rfl, by decide,
   claim_C5 cfg2 envH ⟨rfl, rfl, rfl⟩ [(params7, 20)] (prev5, 0, 0) c5res rfl (by decide)⟩

/-- C7: corrected — on a no-rebuild tick with a non-empty previous link
list the retained links are exactly the previous links filtered to live
endpoints, but the rebuild-anyway threshold is
`existingLinks.length >= Math.floor(targetLinkCount * 0.6)`: the floor
makes it weaker than the spec's strict "fewer than 60%", and the whole
branch is skipped when the previous list is empty. -/
theorem claim_C7 (cfg : Cfg) (env : EnvR) (p : NetworkParams) (prev : Network)
    (counter fuel k0 : Nat) (r : TickResult)
    (h : schedTick cfg env p prev counter fuel k0 = some r)
    (hsr : r.shouldRebuildLinks = false) (hne : prev.links ≠ []) :
    ((Rat.floor ((p.targetLinkCount : ℚ) * 6/10)).toNat ≤ (survivingLinks prev r).length →
      r.links = survivingLinks prev r ∧ r.linksRebuilt = false) ∧
    ((survivingLinks prev r).length < (Rat.floor ((p.targetLinkCount : ℚ) * 6/10)).toNat →
      r.linksRebuilt = true ∧ r.links = r.freshLinks) :=
  schedTick_retention cfg env p prev counter fuel k0 r h hsr hne

/-- Counterexample for C7: target 6, only 3 of 4 links survive the filter
— strictly fewer than 60% of 6 = 3.6 — yet the tick retains them without
rebuilding, because 3 ≥ floor(3.6) = 3. -/
theorem claim_C7_counterexample :
    schedTick cfg2 envH params7 prev7 0 20 0 = some r7res ∧
    survivingLinks prev7 r7res = prev5.links ∧
    ((survivingLinks prev7 r7res).length : ℚ) < (params7.targetLinkCount : ℚ) * 6/10 ∧
    r7res.linksRebuilt = false ∧
    r7res.links = prev5.links :=
  ⟨rfl, rfl, by decide, rfl, rfl⟩

/-- Witness for C7 on the same tick: the floor threshold is met, so the
theorem yields the retention equality. -/
theorem claim_C7_witness :
    schedTick cfg2 envH params7 prev7 0 20 0 = some r7res ∧
    r7res.shouldRebuildLinks = false ∧
    prev7.links ≠ [] ∧
    ((Rat.floor ((params7.targetLinkCount : ℚ) * 6/10)).toNat
        ≤ (survivingLinks prev7 r7res).length →
      r7res.links = survivingLinks prev7 r7res ∧ r7res.linksRebuilt = false) ∧
    r7res.links = survivingLinks prev7 r7res :=
  ⟨rfl, rfl, by decide,
   (claim_C7 cfg2 envH params7 prev7 0 20 0 r7res rfl rfl (by decide)).1,
   ((claim_C7 cfg2 envH params7 prev7 0 20 0 r7res rfl rfl (by decide)).1 (by decide)).1⟩

/-- C8: confirmed — every derived phase, rate and seed field is a pure
function of the identity string: the `OrganicNode` fields do not read the
index argument (which can differ across cache rebuilds), and the
`OrganicLink` fields factor through the combined key source-target, so
re-deriving the state for the same identity always reproduces the same
values; no time, call order or randomness enters the derivation. -/
theorem claim_C8 (id : String) (i j : Nat) (s1 t1 s2 t2 : String)
    (h : s1 ++ "-" ++ t1 = s2 ++ "-" ++ t2) :
    nodePhase (mkOrganicNode id i) = nodePhase (mkOrganicNode id j) ∧
    linkPhase (mkOrganicLink s1 t1) = linkPhase (mkOrganicLink s2 t2) := by
  constructor
  · rfl
  · simp only [linkPhase, mkOrganicLink]
    rw [h]

/-- Witness for C8: the distinct pairs (a-b, c) and (a, b-c) share the
combined key, hence identical derived fields; the node part at two
indices. -/
theorem claim_C8_witness :
    ("a-b" ++ "-" ++ "c" = "a" ++ "-" ++ "b-c") ∧
    (nodePhase (mkOrganicNode "x" 0) = nodePhase (mkOrganicNode "x" 5) ∧
     linkPhase (mkOrganicLink "a-b" "c") = linkPhase (mkOrganicLink "a" "b-c")) :=
  ⟨by decide, claim_C8 "x" 0 5 "a-b" "c" "a" "b-c" (by decide)⟩

/-- C9: confirmed — `pushLink` rejects source = target and every link of
every produced set went through it, both in direct generation and in the
rebuild inside an evolution step, so no emitted link set holds a
self-loop. -/
theorem claim_C9 :
    (∀ (cfg : Cfg) (env : EnvR) (nodes : List Node) (lc fuel k0 : Nat) (L : List Link),
      buildStrandLinks cfg env nodes lc fuel k0 = some L →
      ∀ l ∈ L, l.source ≠ l.target) ∧
    (∀ (cfg : Cfg) (env : EnvR) (opts : EvolveOpts) (prev : Network) (fuel k0 : Nat)
      (net : Network) (k1 : Nat),
      evolveDummyNetwork cfg env opts prev fuel k0 = some (net, k1) →
      ∀ l ∈ net.links, l.source ≠ l.target) :=
  ⟨buildStrandLinks_noSelf, evolve_noSelf⟩

/-- The passes of a `buildStrandLinks` run on an empty or single-id node
list push nothing: the endpoint predicate confines both ends of any link
to the same single id, which the self-loop rejection forbids. -/
theorem buildStrandLinks_small (cfg : Cfg) (env : EnvR) (nodes : List Node) (lc fuel k0 : Nat)
    (hlen : ¬ 1 < (stIds nodes).length)
    (hN : NodesOK (fun x => x ∈ stIds nodes) cfg nodes)
    (hsingle : ∀ x ∈ stIds nodes, ∀ y ∈ stIds nodes, x = y) :
    buildStrandLinks cfg env nodes lc fuel k0 = some [] := by
  have hfull : buildStrandLinksFull cfg env nodes lc fuel k0
      = some (buildPost cfg env nodes (buildPre cfg env nodes k0)) := by
    unfold buildStrandLinksFull
    rw [padLoop_exit env (stIds nodes) lc hlen fuel (buildPre cfg env nodes k0)]
  have hwf := (buildStrandLinksFull_wf (fun x => x ∈ stIds nodes) cfg env nodes lc fuel k0 _
    hN hfull).1
  have hnil : (buildPost cfg env nodes (buildPre cfg env nodes k0)).links = [] := by
    cases hl : (buildPost cfg env nodes (buildPre cfg env nodes k0)).links with
    | nil => rfl
    | cons l tl =>
      exfalso
      have h2 := hwf.2 l (by rw [hl]; exact List.mem_cons_self l tl)
      exact h2.1 (hsingle l.source h2.2.2.2.1 l.target h2.2.2.2.2)
  unfold buildStrandLinks
  rw [hfull]
  simp only [Option.map_some']
  rw [hnil, List.take_nil]

/-- C10: corrected — with 0 nodes generation returns the empty link set
without error for every configuration, but a single AUXILIARY node is
still linked to its (possibly absent) parent references when its family
pass is enabled.  The amended 1-node case therefore restricts to nodes of
the base layers (not bridge / sub-strand / end-noise), where the result is
always `some []`. -/
theorem claim_C10 (cfg : Cfg) (env : EnvR) (lc fuel k0 : Nat) (n : Node)
    (hb : n.layer ≠ "bridge") (hs : n.layer ≠ "sub-strand") (he : n.layer ≠ "end-noise") :
    buildStrandLinks cfg env [] lc fuel k0 = some [] ∧
    buildStrandLinks cfg env [n] lc fuel k0 = some [] := by
  constructor
  · exact buildStrandLinks_small cfg env [] lc fuel k0 (by decide)
      ⟨fun m hm => absurd hm (List.not_mem_nil m),
       fun _ m hm => absurd hm (List.not_mem_nil m),
       fun _ m hm => absurd hm (List.not_mem_nil m),
       fun _ m hm => absurd hm (List.not_mem_nil m)⟩
      (fun x hx => absurd hx (List.not_mem_nil x))
  · refine buildStrandLinks_small cfg env [n] lc fuel k0 (by simp [stIds]) ?_ ?_
    · refine ⟨fun m hm _ => List.mem_map.2 ⟨m, hm, rfl⟩, ?_, ?_, ?_⟩
      · exact fun _ m hm hlay => absurd ((List.mem_singleton.1 hm) ▸ hlay) hb
      · exact fun _ m hm hlay => absurd ((List.mem_singleton.1 hm) ▸ hlay) hs
      · exact fun _ m hm hlay => absurd ((List.mem_singleton.1 hm) ▸ hlay) he
    · intro x hx y hy
      have hx2 : x = n.id := List.mem_singleton.1 hx
      have hy2 : y = n.id := List.mem_singleton.1 hy
      rw [hx2, hy2]

/-- Counterexample for C10: a single bridge node with two absent parents
yields two links (to nodes that do not exist) when the bridge family is
enabled. -/
theorem claim_C10_counterexample :
    buildStrandLinks cfg10 envH [bNode] 5 10 0
      = some [⟨"n-0", "b-0", 11/20, true⟩, ⟨"n-1", "b-0", 11/20, true⟩] ∧
    ([bNode] : List Node).length = 1 :=
  ⟨rfl, rfl⟩

/-- Witness for C10 under the bridge-enabled configuration with a hidden
node. -/
theorem claim_C10_witness :
    ((hNode 0).layer ≠ "bridge" ∧ (hNode 0).layer ≠ "sub-strand" ∧
     (hNode 0).layer ≠ "end-noise") ∧
    buildStrandLinks cfg10 envH [] 5 10 0 = some [] ∧
    buildStrandLinks cfg10 envH [hNode 0] 5 10 0 = some [] :=
  ⟨⟨by decide, by decide, by decide⟩,
   (claim_C10 cfg10 envH 5 10 0 (hNode 0) (by decide) (by decide) (by decide)).1,
   (claim_C10 cfg10 envH 5 10 0 (hNode 0) (by decide) (by decide) (by decide)).2⟩
